import Mathlib

/-! The `lookup` command of rbac-tool (`cmd/lookup_cmd.go`)

A shallow embedding of `NewCommandLookup.RunE`: pattern selection, the
match-and-project loop over the permission graph, and the row sorter.

Modelling conventions.

* A Go `string` is a Lean `String` read through its UTF-8 bytes
  (`strings.bytes`); `<` on Go strings is the lexicographic order of the bytes,
  which is proved to be the order `<` of `String` (`bytes_lt_iff`).
* A Go `map[string]V` is an association list `List (String × V)`. The order of
  the list is the order in which one run of `range` enumerates the map;
  `m[k]` with the comma-ok form is a key lookup.
* A Go slice is a `List`; `append(rows, row)` is `rows ++ [row]`.
* `regexp.Compile`, `kube.NewClient`, `rbac.NewPermissionsFromCluster` and
  `sort.Slice` live outside `cmd/lookup_cmd.go`. They are parameters of the
  model (`Env`); `sort.Slice` is constrained by its documented contract
  (`SliceSorter`). Where the order of rows that compare equal matters, the
  routine of the library itself is used (`sort.Slice`, the pattern-defeating
  quicksort of Go 1.19 and later).
-/

namespace strings

/-- The UTF-8 encoding of one code point, as bytes. -/
def encodeRune (n : Nat) : List Nat :=
  if n < 0x80 then [n]
  else if n < 0x800 then [0xC0 + n / 0x40, 0x80 + n % 0x40]
  else if n < 0x10000 then [0xE0 + n / 0x1000, 0x80 + n / 0x40 % 0x40, 0x80 + n % 0x40]
  else [0xF0 + n / 0x40000, 0x80 + n / 0x1000 % 0x40, 0x80 + n / 0x40 % 0x40, 0x80 + n % 0x40]

/-- The bytes of a Go `string`: the UTF-8 encoding of its text. -/
def bytes (s : String) : List Nat :=
  s.data.flatMap fun c => encodeRune c.toNat

/-- Go `strings.Compare`: `0` when `a == b`, `-1` when `a < b`, `+1` otherwise,
where `a < b` on Go strings compares the bytes lexicographically. -/
def Compare (a b : String) : Int :=
  if a = b then 0 else if bytes a < bytes b then -1 else 1

end strings

namespace fmt

/-- The expansion of a format string, on characters. Only what this program
uses is modelled: literal text and the verb `%v` applied to a string operand.
A `%v` without operand prints `%!v(MISSING)`. -/
def expand : List Char → List String → List Char × List String
  | '%' :: 'v' :: rest, a :: operands =>
      let r := expand rest operands
      (a.toList ++ r.1, r.2)
  | '%' :: 'v' :: rest, [] =>
      let r := expand rest []
      ("%!v(MISSING)".toList ++ r.1, r.2)
  | c :: rest, operands =>
      let r := expand rest operands
      (c :: r.1, r.2)
  | [], operands => ([], operands)

/-- The text `fmt` appends for operands no verb consumed:
`%!(EXTRA string=a, string=b)`. -/
def extra : List String → String
  | [] => ""
  | operands => "%!(EXTRA " ++ ", ".intercalate (operands.map (fun a => "string=" ++ a)) ++ ")"

/-- Go `fmt.Sprintf`, for string operands and the verb `%v`. -/
def Sprintf (format : String) (operands : List String) : String :=
  let r := expand format.toList operands
  String.mk r.1 ++ extra r.2

end fmt

/-! ### The library routine `sort.Slice`

Modelled from the source of Go's package `sort` (`sort.Slice` and the
functions of `zsortfunc.go`, Go 1.19 and later: pattern-defeating quicksort),
which is outside this repository. A slice is a `List`, an index a `Nat`, and
every loop is a function that recurses on a counter. -/

namespace sort

/-- Go `bits.Len`: the number of bits of `n`, found in at most `fuel` halvings. -/
def lenLoop : Nat → Nat → Nat
  | 0, _ => 0
  | fuel + 1, n => if n = 0 then 0 else 1 + lenLoop fuel (n / 2)

/-- Go `bits.Len(uint(n))`. -/
def Len (n : Nat) : Nat := lenLoop n n

/-- The call `data.Less(i, j)` of `lessSwap`: the less function on the elements
at `i` and `j` of the slice in its current state. -/
def Less {α : Type} (lt : α → α → Bool) (data : List α) (i j : Nat) : Bool :=
  match data.get? i, data.get? j with
  | some x, some y => lt x y
  | _, _ => false

/-- The call `data.Swap(i, j)` of `lessSwap`. -/
def Swap {α : Type} (data : List α) (i j : Nat) : List α :=
  match data.get? i, data.get? j with
  | some x, some y => (data.set i y).set j x
  | _, _ => data

/-- The inner loop of `insertionSort_func`:
`for j := i; j > a && data.Less(j, j-1); j-- { data.Swap(j, j-1) }`. -/
def insertionInner {α : Type} (lt : α → α → Bool) (a : Nat) : Nat → List α → List α
  | 0, data => data
  | j + 1, data =>
    if a < j + 1 ∧ Less lt data (j + 1) j = true then
      insertionInner lt a j (Swap data (j + 1) j)
    else data

/-- Go `insertionSort_func`: sorts `data[a:b]` by insertion,
`for i := a + 1; i < b; i++`. -/
def insertionSort_func {α : Type} (lt : α → α → Bool) (data : List α) (a b : Nat) : List α :=
  (List.range' (a + 1) (b - (a + 1))).foldl (fun d i => insertionInner lt a i d) data

/-- The loop of `siftDown_func`, `root` descending the heap. -/
def siftDownLoop {α : Type} (lt : α → α → Bool) (hi first : Nat) :
    Nat → Nat → List α → List α
  | 0, _, data => data
  | fuel + 1, root, data =>
    if 2 * root + 1 ≥ hi then data
    else
      let child :=
        if 2 * root + 2 < hi ∧ Less lt data (first + (2 * root + 1)) (first + (2 * root + 2)) = true
        then 2 * root + 2 else 2 * root + 1
      if Less lt data (first + root) (first + child) = false then data
      else siftDownLoop lt hi first fuel child (Swap data (first + root) (first + child))

/-- Go `siftDown_func`: the heap property on `data[lo:hi]`. -/
def siftDown_func {α : Type} (lt : α → α → Bool) (data : List α) (lo hi first : Nat) : List α :=
  siftDownLoop lt hi first (hi + 1) lo data

/-- Go `heapSort_func`. -/
def heapSort_func {α : Type} (lt : α → α → Bool) (data : List α) (a b : Nat) : List α :=
  let hi := b - a
  let built := (List.range ((hi - 1) / 2 + 1)).reverse.foldl
    (fun d i => siftDown_func lt d i hi a) data
  (List.range hi).reverse.foldl
    (fun d i => siftDown_func lt (Swap d a (a + i)) 0 i a) built

/-- The loop `for i <= j && data.Less(i, a) { i++ }` of `partition_func`. -/
def scanUp {α : Type} (lt : α → α → Bool) (data : List α) (a j : Nat) : Nat → Nat → Nat
  | 0, i => i
  | fuel + 1, i => if i ≤ j ∧ Less lt data i a = true then scanUp lt data a j fuel (i + 1) else i

/-- The loop `for i <= j && !data.Less(j, a) { j-- }` of `partition_func`. -/
def scanDown {α : Type} (lt : α → α → Bool) (data : List α) (a i : Nat) : Nat → Nat → Nat
  | 0, j => j
  | fuel + 1, j => if i ≤ j ∧ Less lt data j a = false then scanDown lt data a i fuel (j - 1) else j

/-- The main loop of `partition_func`; the result is the slice and `j`. -/
def partitionLoop {α : Type} (lt : α → α → Bool) (a : Nat) :
    Nat → List α → Nat → Nat → List α × Nat
  | 0, data, _, j => (data, j)
  | fuel + 1, data, i, j =>
    let i1 := scanUp lt data a j (data.length + 1) i
    let j1 := scanDown lt data a i1 (data.length + 1) j
    if i1 > j1 then (data, j1)
    else partitionLoop lt a fuel (Swap data i1 j1) (i1 + 1) (j1 - 1)

/-- Go `partition_func`: one quicksort partition of `data[a:b]` around
`data[pivot]`; the result is the slice, the new index of the pivot and whether
the slice was already partitioned. -/
def partition_func {α : Type} (lt : α → α → Bool) (data : List α) (a b pivot : Nat) :
    List α × Nat × Bool :=
  let d0 := Swap data a pivot
  let i := scanUp lt d0 a (b - 1) (d0.length + 1) (a + 1)
  let j := scanDown lt d0 a i (d0.length + 1) (b - 1)
  if i > j then (Swap d0 j a, j, true)
  else
    let r := partitionLoop lt a (d0.length + 1) (Swap d0 i j) (i + 1) (j - 1)
    (Swap r.1 r.2 a, r.2, false)

/-- The loop `for i <= j && !data.Less(a, i) { i++ }` of `partitionEqual_func`. -/
def scanUpEqual {α : Type} (lt : α → α → Bool) (data : List α) (a j : Nat) : Nat → Nat → Nat
  | 0, i => i
  | fuel + 1, i =>
    if i ≤ j ∧ Less lt data a i = false then scanUpEqual lt data a j fuel (i + 1) else i

/-- The loop `for i <= j && data.Less(a, j) { j-- }` of `partitionEqual_func`. -/
def scanDownEqual {α : Type} (lt : α → α → Bool) (data : List α) (a i : Nat) : Nat → Nat → Nat
  | 0, j => j
  | fuel + 1, j =>
    if i ≤ j ∧ Less lt data a j = true then scanDownEqual lt data a i fuel (j - 1) else j

/-- The loop of `partitionEqual_func`; the result is the slice and `i`. -/
def partitionEqualLoop {α : Type} (lt : α → α → Bool) (a : Nat) :
    Nat → List α → Nat → Nat → List α × Nat
  | 0, data, i, _ => (data, i)
  | fuel + 1, data, i, j =>
    let i1 := scanUpEqual lt data a j (data.length + 1) i
    let j1 := scanDownEqual lt data a i1 (data.length + 1) j
    if i1 > j1 then (data, i1)
    else partitionEqualLoop lt a fuel (Swap data i1 j1) (i1 + 1) (j1 - 1)

/-- Go `partitionEqual_func`: the elements equal to `data[pivot]`, then the
greater ones. -/
def partitionEqual_func {α : Type} (lt : α → α → Bool) (data : List α) (a b pivot : Nat) :
    List α × Nat :=
  let d0 := Swap data a pivot
  partitionEqualLoop lt a (d0.length + 1) d0 (a + 1) (b - 1)

/-- The loop `for i < b && !data.Less(i, i-1) { i++ }` of
`partialInsertionSort_func`. -/
def scanSorted {α : Type} (lt : α → α → Bool) (data : List α) (b : Nat) : Nat → Nat → Nat
  | 0, i => i
  | fuel + 1, i =>
    if i < b ∧ Less lt data i (i - 1) = false then scanSorted lt data b fuel (i + 1) else i

/-- The loop `for j := i - 1; j >= 1; j--` of `partialInsertionSort_func`,
which shifts the smaller element to the left. -/
def shiftLeft {α : Type} (lt : α → α → Bool) : Nat → List α → List α
  | 0, data => data
  | j + 1, data =>
    if Less lt data (j + 1) j = false then data else shiftLeft lt j (Swap data (j + 1) j)

/-- The loop `for j := i + 1; j < b; j++` of `partialInsertionSort_func`,
which shifts the greater element to the right. -/
def shiftRight {α : Type} (lt : α → α → Bool) (b : Nat) : Nat → Nat → List α → List α
  | 0, _, data => data
  | fuel + 1, j, data =>
    if j < b then
      if Less lt data j (j - 1) = false then data
      else shiftRight lt b fuel (j + 1) (Swap data j (j - 1))
    else data

/-- The loop `for j := 0; j < maxSteps; j++` of `partialInsertionSort_func`
(`steps` iterations left); the result is the slice and whether it is sorted. -/
def partialInsertionLoop {α : Type} (lt : α → α → Bool) (a b : Nat) :
    Nat → Nat → List α → List α × Bool
  | 0, _, data => (data, false)
  | steps + 1, i, data =>
    let i1 := scanSorted lt data b (data.length + 1) i
    if i1 = b then (data, true)
    else if b - a < 50 then (data, false)
    else
      let d1 := Swap data i1 (i1 - 1)
      let d2 := if i1 - a ≥ 2 then shiftLeft lt (i1 - 1) d1 else d1
      let d3 := if b - i1 ≥ 2 then shiftRight lt b (d2.length + 1) (i1 + 1) d2 else d2
      partialInsertionLoop lt a b steps i1 d3

/-- Go `partialInsertionSort_func`, with `maxSteps = 5` and
`shortestShifting = 50`. -/
def partialInsertionSort_func {α : Type} (lt : α → α → Bool) (data : List α) (a b : Nat) :
    List α × Bool :=
  partialInsertionLoop lt a b 5 (a + 1) data

/-- The method `Next` of Go's `xorshift`, a 64-bit state shifted by 13, 17
and 5. -/
def xorshiftNext (r : Nat) : Nat :=
  let r1 := Nat.xor r ((r <<< 13) % 2 ^ 64)
  let r2 := Nat.xor r1 (r1 >>> 17)
  Nat.xor r2 ((r2 <<< 5) % 2 ^ 64)

/-- Go `breakPatterns_func`: three swaps at pseudo-random places. -/
def breakPatterns_func {α : Type} (data : List α) (a b : Nat) : List α :=
  let length := b - a
  if length ≥ 8 then
    let modulus := 2 ^ Len length
    let idx := a + (length / 4) * 2 - 1
    let step := fun (s : List α × Nat) (i : Nat) =>
      let random := xorshiftNext s.2
      let other := random % modulus
      let other1 := if other ≥ length then other - length else other
      (Swap s.1 (idx - 1 + i) (a + other1), random)
    ([0, 1, 2].foldl step (data, length)).1
  else data

/-- Go `order2_func`: the indices `a`, `b` ordered by their elements, and the
number of swaps so far. -/
def order2_func {α : Type} (lt : α → α → Bool) (data : List α) (a b swaps : Nat) :
    Nat × Nat × Nat :=
  if Less lt data b a = true then (b, a, swaps + 1) else (a, b, swaps)

/-- Go `median_func`: the index of the median of three elements. -/
def median_func {α : Type} (lt : α → α → Bool) (data : List α) (a b c swaps : Nat) :
    Nat × Nat :=
  let r1 := order2_func lt data a b swaps
  let r2 := order2_func lt data r1.2.1 c r1.2.2
  let r3 := order2_func lt data r1.1 r2.1 r2.2.2
  (r3.2.1, r3.2.2)

/-- Go `medianAdjacent_func`. -/
def medianAdjacent_func {α : Type} (lt : α → α → Bool) (data : List α) (a swaps : Nat) :
    Nat × Nat :=
  median_func lt data (a - 1) a (a + 1) swaps

/-- The hints of `choosePivot_func`. -/
inductive sortedHint where
  | unknownHint
  | increasingHint
  | decreasingHint
  deriving DecidableEq, Repr

/-- Go `choosePivot_func`: a static pivot below 8 elements, the median of
three below 50, Tukey's ninther from 50 on. -/
def choosePivot_func {α : Type} (lt : α → α → Bool) (data : List α) (a b : Nat) :
    Nat × sortedHint :=
  let l := b - a
  let i := a + l / 4 * 1
  let j := a + l / 4 * 2
  let k := a + l / 4 * 3
  let r :=
    if l ≥ 8 then
      if l ≥ 50 then
        let ri := medianAdjacent_func lt data i 0
        let rj := medianAdjacent_func lt data j ri.2
        let rk := medianAdjacent_func lt data k rj.2
        median_func lt data ri.1 rj.1 rk.1 rk.2
      else median_func lt data i j k 0
    else (j, 0)
  if r.2 = 0 then (r.1, sortedHint.increasingHint)
  else if r.2 = 12 then (r.1, sortedHint.decreasingHint)
  else (r.1, sortedHint.unknownHint)

/-- The loop of `reverseRange_func`. -/
def reverseLoop {α : Type} : Nat → Nat → Nat → List α → List α
  | 0, _, _, data => data
  | fuel + 1, i, j, data =>
    if i < j then reverseLoop fuel (i + 1) (j - 1) (Swap data i j) else data

/-- Go `reverseRange_func`. -/
def reverseRange_func {α : Type} (data : List α) (a b : Nat) : List α :=
  reverseLoop (data.length + 1) a (b - 1) data

/-- Go `pdqsort_func`: sorts `data[a:b]`. The loop `for` and the recursive call
of the function both spend `fuel`; every turn returns or shrinks `b - a`, so
`b - a + 1` is enough. The two flags are the local variables `wasBalanced` and
`wasPartitioned`. -/
def pdqsort_func {α : Type} (lt : α → α → Bool) :
    Nat → List α → Nat → Nat → Nat → Bool → Bool → List α
  | 0, data, _, _, _, _, _ => data
  | fuel + 1, data, a, b, limit, wasBalanced, wasPartitioned =>
    let length := b - a
    if length ≤ 12 then insertionSort_func lt data a b
    else if limit = 0 then heapSort_func lt data a b
    else
      let d1 := if wasBalanced then data else breakPatterns_func data a b
      let limit1 := if wasBalanced then limit else limit - 1
      let c := choosePivot_func lt d1 a b
      let d2 := if c.2 = sortedHint.decreasingHint then reverseRange_func d1 a b else d1
      let pivot := if c.2 = sortedHint.decreasingHint then (b - 1) - (c.1 - a) else c.1
      let hint := if c.2 = sortedHint.decreasingHint then sortedHint.increasingHint else c.2
      let p :=
        if wasBalanced && wasPartitioned && decide (hint = sortedHint.increasingHint) then
          partialInsertionSort_func lt d2 a b
        else (d2, false)
      if p.2 then p.1
      else if a > 0 ∧ Less lt p.1 (a - 1) pivot = false then
        let e := partitionEqual_func lt p.1 a b pivot
        pdqsort_func lt fuel e.1 e.2 b limit1 wasBalanced wasPartitioned
      else
        let q := partition_func lt p.1 a b pivot
        let mid := q.2.1
        let leftLen := mid - a
        let rightLen := b - mid
        let balanceThreshold := length / 8
        if leftLen < rightLen then
          pdqsort_func lt fuel (pdqsort_func lt fuel q.1 a mid limit1 true true)
            (mid + 1) b limit1 (decide (leftLen ≥ balanceThreshold)) q.2.2
        else
          pdqsort_func lt fuel (pdqsort_func lt fuel q.1 (mid + 1) b limit1 true true)
            a mid limit1 (decide (rightLen ≥ balanceThreshold)) q.2.2

/-- Go `sort.Slice(x, less)`: `pdqsort_func` on the whole slice with the limit
`bits.Len(length)`. -/
def Slice {α : Type} (x : List α) (less : α → α → Bool) : List α :=
  pdqsort_func less (x.length + 1) x 0 x.length (Len x.length) true true

end sort

namespace cmd

/-- Go `error`: the value is identified with the message `Error()` returns. -/
structure GoError where
  msg : String
  deriving DecidableEq, Repr

/-- Modelled from the spec: the type `Subject` of the rbac API (its declaration
is outside `cmd/lookup_cmd.go`); the loop reads `Name` and `Kind`. -/
structure Subject where
  Name : String
  Kind : String
  deriving DecidableEq, Repr

/-- Modelled from the spec: the type `RoleRef`; the loop reads `Name`. -/
structure RoleRef where
  Name : String
  deriving DecidableEq, Repr

/-- Modelled from the spec: the type `RoleBinding`; the loop reads
`Namespace`, `Subjects` and `RoleRef.Name`. -/
structure RoleBinding where
  Namespace : String
  Subjects : List Subject
  RoleRef : cmd.RoleRef
  deriving DecidableEq, Repr

/-- Modelled from the spec: the type `rbac.Permissions`, the permission graph.
`Roles` is `rolesByScope`, `RoleBindings` is `bindingsByScope`; the role type
`ρ` is never inspected by the command. -/
structure Permissions (ρ : Type) where
  Roles : List (String × List ρ)
  RoleBindings : List (String × List RoleBinding)

/-- A compiled `*regexp.Regexp`, as far as the command uses it: `MatchString`. -/
structure Regexp where
  MatchString : String → Bool

/-- One table row, a Go `[]string`. -/
abbrev Row := List String

/-- The header handed to `table.SetHeader`. -/
def header : Row := ["SUBJECT", "SUBJECT TYPE", "SCOPE", "NAMESPACE", "ROLE"]

/-- The comma-ok map read `_, exist := m[k]`. -/
def exist {V : Type} (m : List (String × V)) (k : String) : Bool :=
  (m.lookup k).isSome

/-- The body of the innermost loop (lines 79-95): one subject of one binding,
with `rows` the slice built so far. -/
def subjectStep {ρ : Type} (perms : Permissions ρ) (re : Regexp) (binding : RoleBinding)
    (rows : List Row) (subject : Subject) : List Row :=
  if !re.MatchString subject.Name then rows
  else if !exist perms.Roles binding.Namespace then rows
  else if binding.Namespace == "" then
    rows ++ [[subject.Name, subject.Kind, "ClusterRole", "", binding.RoleRef.Name]]
  else
    rows ++ [[subject.Name, subject.Kind, "Role", binding.Namespace, binding.RoleRef.Name]]

/-- The loop over `binding.Subjects` (lines 78-97). -/
def bindingStep {ρ : Type} (perms : Permissions ρ) (re : Regexp)
    (rows : List Row) (binding : RoleBinding) : List Row :=
  binding.Subjects.foldl (subjectStep perms re binding) rows

/-- The loop over the bindings of one map entry (lines 77-98); the key of the
entry is discarded by `for _, bindings := range`. -/
def scopeStep {ρ : Type} (perms : Permissions ρ) (re : Regexp)
    (rows : List Row) (entry : String × List RoleBinding) : List Row :=
  entry.2.foldl (bindingStep perms re) rows

/-- The match-and-project loop (lines 75-99): the rows in emission order. -/
def matchRows {ρ : Type} (perms : Permissions ρ) (re : Regexp) : List Row :=
  perms.RoleBindings.foldl (scopeStep perms re) []

/-- The less function given to `sort.Slice` (lines 101-107), on the two rows
`rows[i]` and `rows[j]`. Every row the loop emits has five fields, so the
default of `getD` is never read. -/
def less (ri rj : Row) : Bool :=
  if strings.Compare (ri.getD 0 "") (rj.getD 0 "") == 0 then
    decide (strings.Compare (ri.getD 3 "") (rj.getD 3 "") < 0)
  else
    decide (strings.Compare (ri.getD 0 "") (rj.getD 0 "") < 0)

/-- What package `sort` requires of a less function: a transitive ordering
(`Less(i, j)` and `Less(j, k)` give `Less(i, k)`; both false gives
`Less(i, k)` false) in which no element sorts before itself. -/
structure LessOrdering {α : Type} (lt : α → α → Bool) : Prop where
  irrefl : ∀ a, lt a a = false
  trans : ∀ a b c, lt a b = true → lt b c = true → lt a c = true
  ntrans : ∀ a b c, lt a b = false → lt b c = false → lt a c = false

/-- The documented contract of `sort.Slice(x, less)`: it rearranges `x` in
place (the result is a permutation of `x`) so that afterwards no element is
less than an earlier one. "The sort is not guaranteed to be stable": nothing
more is promised about elements that compare equal. -/
structure SliceSorter where
  Slice : {α : Type} → List α → (α → α → Bool) → List α
  perm : ∀ {α : Type} (x : List α) (lt : α → α → Bool), (Slice x lt).Perm x
  sorted : ∀ {α : Type} (x : List α) (lt : α → α → Bool), LessOrdering lt →
    (Slice x lt).Pairwise (fun a b => lt b a = false)

/-- The spec's `lookup` composed with the sorter: lines 75-107. -/
def lookup {ρ : Type} (S : SliceSorter) (perms : Permissions ρ) (re : Regexp) : List Row :=
  S.Slice (matchRows perms re) less

/-- Pattern selection (lines 45-53): the call of `regexp.Compile`. -/
def compilePattern (Compile : String → Except GoError Regexp) (regex : String)
    (args : List String) : Except GoError Regexp :=
  if regex != "" then
    Compile regex
  else if h : args.length ≠ 1 then
    Compile (fmt.Sprintf ".*" [])
  else
    Compile (fmt.Sprintf "(?mi)%v" [args.get ⟨0, by omega⟩])

/-- The collaborators of `RunE`: the regular-expression compiler, the cluster
session factory, the permission-graph builder and the sorter. -/
structure Env (κ ρ : Type) where
  Compile : String → Except GoError Regexp
  NewClient : String → Except GoError κ
  NewPermissionsFromCluster : κ → Except GoError (Permissions ρ)
  sort : SliceSorter

/-- `NewCommandLookup.RunE` (lines 41-113). The result is the error returned,
or the rows handed to `table.AppendBulk`. -/
def RunE {κ ρ : Type} (env : Env κ ρ) (clusterContext regex : String)
    (args : List String) : Except GoError (List Row) :=
  match compilePattern env.Compile regex args with
  | .error err => .error err
  | .ok re =>
    match env.NewClient clusterContext with
    | .error err =>
      .error ⟨fmt.Sprintf "Failed to create kubernetes client - %v" [err.msg]⟩
    | .ok client =>
      match env.NewPermissionsFromCluster client with
      | .error err => .error err
      | .ok perms => .ok (lookup env.sort perms re)

/-! ### Reading a row, and the rows of one binding -/

/-- Column `SUBJECT` of a row. -/
def colSubject (r : Row) : String := r.getD 0 ""

/-- Column `SUBJECT TYPE` of a row. -/
def colKind (r : Row) : String := r.getD 1 ""

/-- Column `SCOPE` of a row. -/
def colScope (r : Row) : String := r.getD 2 ""

/-- Column `NAMESPACE` of a row. -/
def colNamespace (r : Row) : String := r.getD 3 ""

/-- Column `ROLE` of a row. -/
def colRole (r : Row) : String := r.getD 4 ""

/-- The rows the loop appends for one subject of a binding: the innermost loop
body run on the empty slice. -/
def subjectRows {ρ : Type} (perms : Permissions ρ) (re : Regexp) (binding : RoleBinding)
    (subject : Subject) : List Row :=
  subjectStep perms re binding [] subject

/-- The rows contributed by one binding: the loop over its subjects run on the
empty slice. -/
def bindingRows {ρ : Type} (perms : Permissions ρ) (re : Regexp) (binding : RoleBinding) :
    List Row :=
  bindingStep perms re [] binding

/-- The scope of a binding is included when its namespace is a key of `Roles`
(the test of line 84). -/
def included {ρ : Type} (perms : Permissions ρ) (binding : RoleBinding) : Bool :=
  exist perms.Roles binding.Namespace

/-- The row of a (binding, subject) pair as lines 89-95 build it. -/
def rowOf (binding : RoleBinding) (subject : Subject) : Row :=
  if binding.Namespace == "" then
    [subject.Name, subject.Kind, "ClusterRole", "", binding.RoleRef.Name]
  else
    [subject.Name, subject.Kind, "Role", binding.Namespace, binding.RoleRef.Name]

/-- The keys of a map. -/
def keys {V : Type} (m : List (String × V)) : List String := m.map Prod.fst

/-- Go `delete(m, k)` on the association list. -/
def deleteKey {V : Type} (m : List (String × V)) (k : String) : List (String × V) :=
  m.filter (fun e => e.1 != k)

/-- The graph with the entry `k` removed from `RoleBindings`. -/
def removeScope {ρ : Type} (perms : Permissions ρ) (k : String) : Permissions ρ :=
  { perms with RoleBindings := deleteKey perms.RoleBindings k }

/-- Every binding is stored under its own namespace: the shape in which the
graph builder files bindings. -/
def KeyedByNamespace {ρ : Type} (perms : Permissions ρ) : Prop :=
  ∀ e ∈ perms.RoleBindings, ∀ b ∈ e.2, b.Namespace = e.1

/-! ### The algorithm of the specification (section 4.2) -/

/-- Step b of the specified algorithm, for one binding: one row per matching
subject, in original order. -/
def specBindingRows (matchesName : String → Bool) (b : RoleBinding) : List Row :=
  b.Subjects.flatMap fun subj =>
    if matchesName subj.Name then
      [[subj.Name, subj.Kind, if b.Namespace = "" then "ClusterRole" else "Role",
        if b.Namespace = "" then "" else b.Namespace, b.RoleRef.Name]]
    else []

/-- The specified `lookup`, before sorting: a scope key absent from
`rolesByScope` is skipped whole, every other scope yields the rows of its
bindings in order. -/
def specRows {ρ : Type} (graph : Permissions ρ) (matchesName : String → Bool) : List Row :=
  graph.RoleBindings.flatMap fun entry =>
    if exist graph.Roles entry.1 then entry.2.flatMap (specBindingRows matchesName) else []

/-! ### Two implementations of the `sort.Slice` contract -/

/-- Insertion sort, which keeps equal elements in their original order. -/
def insertionSorter : SliceSorter where
  Slice x lt := List.insertionSort (fun a b => lt b a = false) x
  perm x lt := List.perm_insertionSort _ x
  sorted x lt h := by
    haveI : IsTotal _ (fun a b => lt b a = false) := ⟨fun a b => by
      cases hba : lt b a with
      | false => exact Or.inl rfl
      | true =>
        refine Or.inr ?_
        cases hab : lt a b with
        | false => rfl
        | true => exact absurd (h.trans b a b hba hab) (by simp [h.irrefl b])⟩
    haveI : IsTrans _ (fun a b => lt b a = false) := ⟨fun a b c hab hbc => h.ntrans c b a hbc hab⟩
    exact List.sorted_insertionSort _ x

/-- Insertion sort of the reversed slice: a second function that meets the
contract `SliceSorter` (it is not the routine of the library, which is
`sort.Slice`). -/
def reversingSorter : SliceSorter where
  Slice x lt := insertionSorter.Slice x.reverse lt
  perm x lt := (insertionSorter.perm x.reverse lt).trans (List.reverse_perm x)
  sorted x lt h := insertionSorter.sorted x.reverse lt h

/-- A matcher that accepts every name, as the compiled pattern `.*` does. -/
def matchAll : Regexp := ⟨fun _ => true⟩

/-! ### Example graphs -/

/-- A graph in which a binding of namespace `prod` is stored under the scope
key `staging`; `Roles` knows `prod` and does not know `staging`. -/
def misfiled : Permissions Unit :=
  ⟨[("prod", [])], [("staging", [⟨"prod", [⟨"alice", "User"⟩], ⟨"admin"⟩⟩])]⟩

/-- A graph whose scope `staging` has bindings and no entry in `Roles`. -/
def orphanScope : Permissions Unit :=
  ⟨[("prod", [])],
   [("staging", [⟨"staging", [⟨"alice", "User"⟩], ⟨"admin"⟩⟩]),
    ("prod", [⟨"prod", [⟨"bob", "User"⟩], ⟨"view"⟩⟩])]⟩

/-- Rows are emitted as bob/b, alice/z, alice/a. -/
def sortExample : Permissions Unit :=
  ⟨[("a", []), ("b", []), ("z", [])],
   [("b", [⟨"b", [⟨"bob", "User"⟩], ⟨"view"⟩⟩]),
    ("z", [⟨"z", [⟨"alice", "User"⟩], ⟨"view"⟩⟩]),
    ("a", [⟨"a", [⟨"alice", "User"⟩], ⟨"view"⟩⟩])]⟩

/-- One subject bound to two roles in one namespace. -/
def tieExample : Permissions Unit :=
  ⟨[("dev", [])],
   [("dev", [⟨"dev", [⟨"alice", "User"⟩], ⟨"edit"⟩⟩, ⟨"dev", [⟨"alice", "User"⟩], ⟨"view"⟩⟩])]⟩

/-- The order the sorter establishes, read on the two key columns in byte
order. -/
def KeyLE (r r' : Row) : Prop :=
  strings.bytes (colSubject r) < strings.bytes (colSubject r') ∨
    (colSubject r = colSubject r' ∧
      strings.bytes (colNamespace r) ≤ strings.bytes (colNamespace r'))

/-- The rows of all (binding, subject position) pairs of the bindings whose
scope is included, in graph order: one row per pair. -/
def allPairRows {ρ : Type} (perms : Permissions ρ) : List Row :=
  perms.RoleBindings.flatMap fun e =>
    e.2.flatMap fun b => if included perms b then b.Subjects.map (rowOf b) else []

/-- The number of (binding, subject position) pairs over the bindings whose
scope is included. -/
def pairCount {ρ : Type} (perms : Permissions ρ) : Nat :=
  (perms.RoleBindings.map fun e =>
    (e.2.map fun b => if included perms b then b.Subjects.length else 0).sum).sum

/-- The number of (binding, subject position) pairs over the map entries whose
scope key is a key of `Roles`. -/
def scopePairCount {ρ : Type} (perms : Permissions ρ) : Nat :=
  (perms.RoleBindings.map fun e =>
    if exist perms.Roles e.1 then (e.2.map fun b => b.Subjects.length).sum else 0).sum

/-- A graph with a cluster-scoped binding (one subject has the empty name, one
a name with a line break), a binding with two subjects in `dev`, and a binding
in `qa`, a scope that `Roles` does not know. -/
def mixedExample : Permissions Unit :=
  ⟨[("", []), ("dev", [])],
   [("", [⟨"", [⟨"", "User"⟩, ⟨"ops\nteam", "Group"⟩], ⟨"cluster-admin"⟩⟩]),
    ("dev", [⟨"dev", [⟨"alice", "User"⟩, ⟨"bob", "ServiceAccount"⟩], ⟨"edit"⟩⟩]),
    ("qa", [⟨"qa", [⟨"carol", "User"⟩], ⟨"view"⟩⟩])]⟩

/-- Collaborators for the examples: a compiler that knows the pattern `.*`, a
session factory and a graph builder that succeed, and insertion sort. -/
def exampleEnv (perms : Permissions Unit) : Env Unit Unit where
  Compile src := if src = ".*" then .ok matchAll else .error ⟨"error parsing regexp"⟩
  NewClient _ := .ok ()
  NewPermissionsFromCluster _ := .ok perms
  sort := insertionSorter

/-- Collaborators whose session factory fails with the error `no such
context`; the compiler knows `.*` and the graph builder would succeed. -/
def offlineEnv : Env Unit Unit where
  Compile src := if src = ".*" then .ok matchAll else .error ⟨"error parsing regexp"⟩
  NewClient _ := .error ⟨"no such context"⟩
  NewPermissionsFromCluster _ := .ok sortExample
  sort := insertionSorter

/-! ### The regular-expression library on flagged literal patterns -/

/-- Modelled from the documentation of Go's packages `regexp/syntax` (flag
`i`) and `unicode` (`SimpleFold`): whether the rune `c` of the input matches
the literal pattern rune `p`, an ASCII letter or digit, under case folding.
The folding orbit of `p` holds `p`, its other ASCII case, and besides U+212A
(Kelvin sign) for `k` and `K`, U+017F (long s) for `s` and `S`. -/
def foldEq (p c : Char) : Bool :=
  c.toNat == p.toNat ||
  (decide (65 ≤ p.toNat) && decide (p.toNat ≤ 90) && c.toNat == p.toNat + 32) ||
  (decide (97 ≤ p.toNat) && decide (p.toNat ≤ 122) && c.toNat + 32 == p.toNat) ||
  ((p.toNat == 75 || p.toNat == 107) && c.toNat == 0x212A) ||
  ((p.toNat == 83 || p.toNat == 115) && c.toNat == 0x17F)

/-- Equality of two runes up to ASCII case. -/
def asciiCaseEq (p c : Char) : Bool :=
  c.toNat == p.toNat ||
  (decide (65 ≤ p.toNat) && decide (p.toNat ≤ 90) && c.toNat == p.toNat + 32) ||
  (decide (97 ≤ p.toNat) && decide (p.toNat ≤ 122) && c.toNat + 32 == p.toNat)

/-- A literal matched at the start of the input, rune by rune. -/
def matchHere (eq : Char → Char → Bool) : List Char → List Char → Bool
  | [], _ => true
  | _ :: _, [] => false
  | p :: ps, c :: cs => eq p c && matchHere eq ps cs

/-- An unanchored search: the literal is tried at every position of the
input. -/
def search (eq : Char → Char → Bool) (lit : List Char) : List Char → Bool
  | [] => matchHere eq lit []
  | c :: cs => matchHere eq lit (c :: cs) || search eq lit cs

/-- The literal `lit` occurs in `name` as a substring up to ASCII case. -/
def occursUpToAsciiCase (lit name : String) : Bool :=
  search asciiCaseEq lit.data name.data

/-- Modelled from the documentation of Go's package `regexp`: the matcher
compiled from `(?mi)` followed by the letters and digits `lit`. `MatchString`
searches the input for the literal, runes compared under case folding; the
flag `m` changes nothing for a pattern without `^` and `$`. -/
def literalFold (lit : String) : Regexp :=
  ⟨fun name => search foldEq lit.data name.data⟩

/-- The compiler behaves as the library on the patterns the command builds
from a positional argument of ASCII letters and digits. -/
def FoldingCompiler (Compile : String → Except GoError Regexp) : Prop :=
  ∀ arg : String, (∀ c ∈ arg.data, c.isAlphanum = true) →
    Compile ("(?mi)" ++ arg) = .ok (literalFold arg)

/-- A compiler for the examples: it knows `.*` and the flagged patterns. -/
def foldingCompile (src : String) : Except GoError Regexp :=
  match src.data with
  | '(' :: '?' :: 'm' :: 'i' :: ')' :: lit => .ok (literalFold ⟨lit⟩)
  | _ => if src = ".*" then .ok matchAll else .error ⟨"error parsing regexp"⟩

/-- The name that consists of the Kelvin sign U+212A. -/
def kelvinName : String := String.mk [Char.ofNat 0x212A]

/-- The graph `sortExample` with its map entries enumerated in the reverse
order. -/
def reorderedExample : Permissions Unit :=
  ⟨sortExample.Roles, sortExample.RoleBindings.reverse⟩

/-- The index expression `row[i]` with Go's bounds check: `none` stands for the
panic on an index out of range. -/
def index (row : Row) (i : Nat) : Option String := row.get? i

/-- The less function of lines 101-107 with its index expressions checked, in
the order in which Go evaluates them; `none` stands for a panic. -/
def lessChecked (ri rj : Row) : Option Bool :=
  match index ri 0, index rj 0 with
  | some a, some b =>
    if strings.Compare a b == 0 then
      match index ri 3, index rj 3 with
      | some c, some d => some (decide (strings.Compare c d < 0))
      | _, _ => none
    else
      some (decide (strings.Compare a b < 0))
  | _, _ => none

/-- Lines 75-107 with the routine of the library: the rows handed to
`table.AppendBulk`. -/
def sortedRows {ρ : Type} (perms : Permissions ρ) (re : Regexp) : List Row :=
  sort.Slice (matchRows perms re) less

/-- A graph of one scope whose three bindings yield thirteen rows; `alice` is
bound to `edit` by the second binding and to `view` by the third. -/
def thirteenRows : Permissions Unit :=
  ⟨[("dev", [])],
   [("dev",
     [⟨"dev", [⟨"mallory", "User"⟩], ⟨"view"⟩⟩,
      ⟨"dev", [⟨"alice", "User"⟩], ⟨"edit"⟩⟩,
      ⟨"dev",
        [⟨"bob", "User"⟩, ⟨"carol", "User"⟩, ⟨"dave", "User"⟩, ⟨"alice", "User"⟩,
         ⟨"frank", "User"⟩, ⟨"grace", "User"⟩, ⟨"heidi", "User"⟩, ⟨"ivan", "User"⟩,
         ⟨"judy", "User"⟩, ⟨"kevin", "User"⟩, ⟨"laura", "User"⟩],
        ⟨"view"⟩⟩])]⟩

/-! ## Properties of the loop and of the sorter -/

/-! ### The loop as a concatenation of per-binding rows -/

theorem foldl_append_flatMap {α β : Type} (f : List β → α → List β) (g : α → List β)
    (h : ∀ acc x, f acc x = acc ++ g x) (l : List α) (acc : List β) :
    l.foldl f acc = acc ++ l.flatMap g := by
  induction l generalizing acc with
  | nil => simp
  | cons x xs ih => simp [List.foldl_cons, ih, h, List.flatMap_cons, List.append_assoc]

theorem subjectRows_eq {ρ : Type} (perms : Permissions ρ) (re : Regexp) (b : RoleBinding)
    (s : Subject) :
    subjectRows perms re b s =
      if re.MatchString s.Name = true ∧ included perms b = true then [rowOf b s] else [] := by
  unfold subjectRows subjectStep rowOf included
  cases hm : re.MatchString s.Name <;> cases he : exist perms.Roles b.Namespace <;>
    by_cases hn : b.Namespace = "" <;> simp_all

theorem subjectStep_eq {ρ : Type} (perms : Permissions ρ) (re : Regexp) (b : RoleBinding)
    (rows : List Row) (s : Subject) :
    subjectStep perms re b rows s = rows ++ subjectRows perms re b s := by
  unfold subjectRows subjectStep
  split_ifs <;> simp

theorem bindingStep_eq {ρ : Type} (perms : Permissions ρ) (re : Regexp) (rows : List Row)
    (b : RoleBinding) :
    bindingStep perms re rows b = rows ++ b.Subjects.flatMap (subjectRows perms re b) :=
  foldl_append_flatMap _ _ (subjectStep_eq perms re b) _ _

theorem bindingRows_eq {ρ : Type} (perms : Permissions ρ) (re : Regexp) (b : RoleBinding) :
    bindingRows perms re b = b.Subjects.flatMap (subjectRows perms re b) := by
  simp [bindingRows, bindingStep_eq]

theorem bindingStep_eq_append {ρ : Type} (perms : Permissions ρ) (re : Regexp) (rows : List Row)
    (b : RoleBinding) :
    bindingStep perms re rows b = rows ++ bindingRows perms re b := by
  rw [bindingStep_eq, bindingRows_eq]

theorem scopeStep_eq {ρ : Type} (perms : Permissions ρ) (re : Regexp) (rows : List Row)
    (e : String × List RoleBinding) :
    scopeStep perms re rows e = rows ++ e.2.flatMap (bindingRows perms re) :=
  foldl_append_flatMap _ _ (bindingStep_eq_append perms re) _ _

theorem matchRows_eq {ρ : Type} (perms : Permissions ρ) (re : Regexp) :
    matchRows perms re = perms.RoleBindings.flatMap fun e => e.2.flatMap (bindingRows perms re) := by
  unfold matchRows
  rw [foldl_append_flatMap _ _ (scopeStep_eq perms re)]
  simp

theorem flatMap_ite_singleton {α β : Type} (p : α → Prop) [DecidablePred p] (f : α → β)
    (l : List α) :
    (l.flatMap fun a => if p a then [f a] else []) = (l.filter fun a => decide (p a)).map f := by
  induction l with
  | nil => rfl
  | cons a l ih =>
    by_cases h : p a <;> simp [List.flatMap_cons, List.filter_cons, h, ih]

theorem bindingRows_included {ρ : Type} (perms : Permissions ρ) (re : Regexp) (b : RoleBinding)
    (h : included perms b = true) :
    bindingRows perms re b = (b.Subjects.filter fun s => re.MatchString s.Name).map (rowOf b) := by
  have hs : subjectRows perms re b =
      fun s => if re.MatchString s.Name = true then [rowOf b s] else [] := by
    funext s
    simp [subjectRows_eq, h]
  rw [bindingRows_eq, hs, flatMap_ite_singleton]
  simp

theorem bindingRows_excluded {ρ : Type} (perms : Permissions ρ) (re : Regexp) (b : RoleBinding)
    (h : included perms b = false) : bindingRows perms re b = [] := by
  have hs : subjectRows perms re b = fun _ => [] := by
    funext s
    simp [subjectRows_eq, h]
  rw [bindingRows_eq, hs]
  simp

theorem mem_matchRows {ρ : Type} (perms : Permissions ρ) (re : Regexp) (row : Row) :
    row ∈ matchRows perms re ↔
      ∃ e ∈ perms.RoleBindings, ∃ b ∈ e.2, row ∈ bindingRows perms re b := by
  simp [matchRows_eq, List.mem_flatMap]

theorem mem_bindingRows {ρ : Type} (perms : Permissions ρ) (re : Regexp) (b : RoleBinding)
    (row : Row) :
    row ∈ bindingRows perms re b ↔
      included perms b = true ∧ ∃ s ∈ b.Subjects, re.MatchString s.Name = true ∧ row = rowOf b s := by
  cases hi : included perms b with
  | false => simp [bindingRows_excluded perms re b hi]
  | true =>
    rw [bindingRows_included perms re b hi]
    simp only [List.mem_map, List.mem_filter, true_and]
    constructor
    · rintro ⟨s, ⟨hs, hm⟩, rfl⟩
      exact ⟨s, hs, hm, rfl⟩
    · rintro ⟨s, hs, hm, rfl⟩
      exact ⟨s, ⟨hs, hm⟩, rfl⟩

theorem mem_lookup {ρ : Type} (S : SliceSorter) (perms : Permissions ρ) (re : Regexp) (row : Row) :
    row ∈ lookup S perms re ↔ row ∈ matchRows perms re :=
  (S.perm _ _).mem_iff

theorem exist_iff_mem_keys {V : Type} (m : List (String × V)) (k : String) :
    exist m k = true ↔ k ∈ keys m := by
  induction m with
  | nil => simp [exist, keys]
  | cons e m ih =>
    obtain ⟨k', v⟩ := e
    by_cases hk : k = k'
    · subst hk
      simp [exist, keys, List.lookup_cons]
    · have hne : (k == k') = false := by simpa using hk
      have : exist ((k', v) :: m) k = exist m k := by
        simp [exist, List.lookup_cons, hne]
      rw [this, ih]
      simp [keys, hk]

theorem exist_eq_false_iff {V : Type} (m : List (String × V)) (k : String) :
    exist m k = false ↔ k ∉ keys m := by
  rw [← exist_iff_mem_keys]
  simp

theorem flatMap_filter_of_nil {α β : Type} (p : α → Bool) (f : α → List β) (l : List α)
    (h : ∀ x ∈ l, p x = false → f x = []) : (l.filter p).flatMap f = l.flatMap f := by
  induction l with
  | nil => rfl
  | cons a l ih =>
    have ih1 := ih fun x hx => h x (List.mem_cons_of_mem _ hx)
    cases hp : p a with
    | true => simp [List.filter_cons, hp, List.flatMap_cons, ih1]
    | false => simp [List.filter_cons, hp, List.flatMap_cons, ih1, h a (List.mem_cons_self _ _) hp]

/-- C1 as stated fails: in `misfiled` the key `staging` is a key of
`RoleBindings` and not of `Roles`, yet the binding stored under it (namespace
`prod`) yields a row, and removing the entry changes the result. -/
theorem scope_filter_counterexample :
    "staging" ∈ keys misfiled.RoleBindings ∧ "staging" ∉ keys misfiled.Roles ∧
    exist misfiled.Roles "staging" = false ∧
    matchRows misfiled matchAll = [["alice", "User", "Role", "prod", "admin"]] ∧
    lookup insertionSorter misfiled matchAll = [["alice", "User", "Role", "prod", "admin"]] ∧
    lookup insertionSorter (removeScope misfiled "staging") matchAll = [] := by
  decide

/-- C1 (amended): the existence filter tests the namespace of the binding.
A binding whose namespace is not a key of `Roles` yields no row whatever its
subjects; so when `k` is not a key of `Roles` and the bindings stored under `k`
carry the namespace `k`, none of them yields a row and `lookup` returns the
rows it returns on the graph with the entry `k` removed. -/
theorem scope_filter_by_namespace {ρ : Type} (S : SliceSorter) (perms : Permissions ρ)
    (re : Regexp) (k : String) (hk : k ∉ keys perms.Roles)
    (hns : ∀ e ∈ perms.RoleBindings, e.1 = k → ∀ b ∈ e.2, b.Namespace = k) :
    (∀ b : RoleBinding, b.Namespace ∉ keys perms.Roles → bindingRows perms re b = []) ∧
    (∀ e ∈ perms.RoleBindings, e.1 = k → ∀ b ∈ e.2, bindingRows perms re b = []) ∧
    matchRows perms re = matchRows (removeScope perms k) re ∧
    lookup S perms re = lookup S (removeScope perms k) re := by
  have h1 : ∀ b : RoleBinding, b.Namespace ∉ keys perms.Roles →
      bindingRows perms re b = [] := fun b hb =>
    bindingRows_excluded perms re b ((exist_eq_false_iff _ _).2 hb)
  have h2 : ∀ e ∈ perms.RoleBindings, e.1 = k → ∀ b ∈ e.2, bindingRows perms re b = [] := by
    intro e he hek b hb
    apply h1
    rw [hns e he hek b hb]
    exact hk
  have h3 : matchRows perms re = matchRows (removeScope perms k) re := by
    rw [matchRows_eq, matchRows_eq]
    have hr : bindingRows (removeScope perms k) re = bindingRows perms re := rfl
    rw [hr]
    show _ = (List.filter (fun e => e.1 != k) perms.RoleBindings).flatMap _
    rw [flatMap_filter_of_nil]
    intro e he hek
    have hek1 : e.1 = k := by simpa using hek
    simp only [List.flatMap_eq_nil_iff]
    exact fun b hb => h2 e he hek1 b hb
  refine ⟨h1, h2, h3, ?_⟩
  unfold lookup
  rw [h3]

/-- The amended C1 at `orphanScope` with `k = staging`. -/
theorem scope_filter_by_namespace_witness :
    "staging" ∈ keys orphanScope.RoleBindings ∧ "staging" ∉ keys orphanScope.Roles ∧
    lookup insertionSorter orphanScope matchAll = [["bob", "User", "Role", "prod", "view"]] ∧
    lookup insertionSorter orphanScope matchAll =
      lookup insertionSorter (removeScope orphanScope "staging") matchAll :=
  ⟨by decide, by decide, by decide,
    (scope_filter_by_namespace insertionSorter orphanScope matchAll "staging" (by decide)
      (by decide)).2.2.2⟩

/-- C2: a row emitted for a binding with empty namespace has scope
`ClusterRole` and empty namespace column; a row emitted for any other binding
has scope `Role` and the namespace of the binding. In every output row
(five fields) the scope is `ClusterRole` exactly when the namespace column is
empty, and the scope is `ClusterRole` or `Role`. -/
theorem scope_classification {ρ : Type} (S : SliceSorter) (perms : Permissions ρ)
    (re : Regexp) :
    (∀ b : RoleBinding, ∀ row ∈ bindingRows perms re b,
      row.length = 5 ∧
      (b.Namespace = "" → colScope row = "ClusterRole" ∧ colNamespace row = "") ∧
      (b.Namespace ≠ "" → colScope row = "Role" ∧ colNamespace row = b.Namespace)) ∧
    (∀ row ∈ lookup S perms re,
      row.length = 5 ∧
      (colScope row = "ClusterRole" ↔ colNamespace row = "") ∧
      (colScope row = "ClusterRole" ∨ colScope row = "Role")) := by
  have key : ∀ b : RoleBinding, ∀ row ∈ bindingRows perms re b,
      row.length = 5 ∧
      (b.Namespace = "" → colScope row = "ClusterRole" ∧ colNamespace row = "") ∧
      (b.Namespace ≠ "" → colScope row = "Role" ∧ colNamespace row = b.Namespace) := by
    intro b row hrow
    obtain ⟨-, s, -, -, rfl⟩ := (mem_bindingRows perms re b row).1 hrow
    by_cases hn : b.Namespace = "" <;> simp [rowOf, hn, colScope, colNamespace]
  refine ⟨key, ?_⟩
  intro row hrow
  obtain ⟨e, -, b, -, hb⟩ := (mem_matchRows perms re row).1 ((mem_lookup S perms re row).1 hrow)
  obtain ⟨h5, hc, hr⟩ := key b row hb
  refine ⟨h5, ?_⟩
  by_cases hn : b.Namespace = ""
  · obtain ⟨h2, h3⟩ := hc hn
    simp [h2, h3]
  · obtain ⟨h2, h3⟩ := hr hn
    simp [h2, h3, hn]

/-! ### The comparator -/

theorem cons_lt_cons_iff (x y : Nat) (a b : List Nat) :
    (x :: a) < (y :: b) ↔ x < y ∨ (x = y ∧ a < b) := by
  constructor
  · intro h
    cases h with
    | cons h => exact Or.inr ⟨rfl, h⟩
    | rel h => exact Or.inl h
  · rintro (h | ⟨rfl, h⟩)
    · exact List.Lex.rel h
    · exact List.Lex.cons h

theorem encodeRune_lt (n m : Nat) (h : n < m) (x y : List Nat) :
    strings.encodeRune n ++ x < strings.encodeRune m ++ y := by
  unfold strings.encodeRune
  split_ifs <;> simp only [List.cons_append, List.nil_append, cons_lt_cons_iff] <;> omega

theorem flatMap_encodeRune_lt {a b : List Char} (h : a < b) :
    (a.flatMap fun c => strings.encodeRune c.toNat) <
      (b.flatMap fun c => strings.encodeRune c.toNat) := by
  induction h with
  | nil =>
    rw [List.flatMap_nil, List.flatMap_cons]
    unfold strings.encodeRune
    split_ifs <;> exact List.Lex.nil
  | cons _ ih =>
    rw [List.flatMap_cons, List.flatMap_cons]
    exact List.Lex.append_left _ ih _
  | rel hlt =>
    rw [List.flatMap_cons, List.flatMap_cons]
    exact encodeRune_lt _ _ hlt _ _

theorem bytes_strictMono : StrictMono strings.bytes := by
  intro a b h
  exact flatMap_encodeRune_lt (String.lt_iff_toList_lt.1 h)

theorem bytes_lt_iff (a b : String) : strings.bytes a < strings.bytes b ↔ a < b :=
  bytes_strictMono.lt_iff_lt

theorem bytes_le_iff (a b : String) : strings.bytes a ≤ strings.bytes b ↔ a ≤ b :=
  bytes_strictMono.le_iff_le

theorem Compare_eq_zero_iff (a b : String) : strings.Compare a b = 0 ↔ a = b := by
  unfold strings.Compare
  split_ifs <;> simp_all

theorem Compare_neg_iff (a b : String) : strings.Compare a b < 0 ↔ a < b := by
  unfold strings.Compare
  rw [← bytes_lt_iff]
  split_ifs with h1 h2
  · subst h1
    simp
  · simp [h2]
  · simp [h2]

theorem less_iff (a b : Row) :
    less a b = true ↔
      colSubject a < colSubject b ∨ (colSubject a = colSubject b ∧ colNamespace a < colNamespace b) := by
  have hdef : less a b =
      if strings.Compare (colSubject a) (colSubject b) == 0 then
        decide (strings.Compare (colNamespace a) (colNamespace b) < 0)
      else decide (strings.Compare (colSubject a) (colSubject b) < 0) := rfl
  rw [hdef]
  generalize colSubject a = x, colSubject b = y, colNamespace a = u, colNamespace b = v
  by_cases h : x = y
  · subst h
    simp [Compare_eq_zero_iff, Compare_neg_iff]
  · have h0 : ¬ strings.Compare x y = 0 := fun hc => h ((Compare_eq_zero_iff x y).1 hc)
    simp [h0, Compare_neg_iff, h]

theorem less_iff_lex (a b : Row) :
    less a b = true ↔
      toLex (colSubject a, colNamespace a) < toLex (colSubject b, colNamespace b) := by
  rw [less_iff, Prod.Lex.lt_iff]

theorem less_eq_false_iff (a b : Row) :
    less a b = false ↔
      toLex (colSubject b, colNamespace b) ≤ toLex (colSubject a, colNamespace a) := by
  rw [← not_lt, ← less_iff_lex]
  simp

theorem less_ordering : LessOrdering less where
  irrefl a := by
    rw [less_eq_false_iff]
  trans a b c hab hbc := by
    rw [less_iff_lex] at *
    exact lt_trans hab hbc
  ntrans a b c hab hbc := by
    rw [less_eq_false_iff] at *
    exact le_trans hbc hab

theorem less_eq_false_iff_keyLE (a b : Row) : less b a = false ↔ KeyLE a b := by
  unfold KeyLE
  rw [less_eq_false_iff, Prod.Lex.le_iff, bytes_lt_iff, bytes_le_iff]

theorem lookup_pairwise {ρ : Type} (S : SliceSorter) (perms : Permissions ρ) (re : Regexp) :
    (lookup S perms re).Pairwise KeyLE :=
  (S.sorted (matchRows perms re) less less_ordering).imp
    fun {a b} h => (less_eq_false_iff_keyLE a b).1 h

/-- C3: the output of `lookup` is sorted ascending by the pair (subject
name, namespace column) in lexicographic byte order: each row `r` and the next one
`r'` (indeed each row and every later one) have the bytes of `colSubject r`
below those of `colSubject r'`, or equal subject names and the bytes of
`colNamespace r` below or equal to those of `colNamespace r'`. Rows emitted as
bob/b, alice/z, alice/a come out as alice/a, alice/z, bob/b, whatever
implementation of `sort.Slice` is used. -/
theorem lookup_sorted {ρ : Type} (S : SliceSorter) (perms : Permissions ρ) (re : Regexp) :
    List.Chain' (fun r r' =>
      strings.bytes (colSubject r) < strings.bytes (colSubject r') ∨
        (colSubject r = colSubject r' ∧
          strings.bytes (colNamespace r) ≤ strings.bytes (colNamespace r')))
      (lookup S perms re) ∧
    List.Pairwise (fun r r' =>
      strings.bytes (colSubject r) < strings.bytes (colSubject r') ∨
        (colSubject r = colSubject r' ∧
          strings.bytes (colNamespace r) ≤ strings.bytes (colNamespace r')))
      (lookup S perms re) ∧
    matchRows sortExample matchAll =
      [["bob", "User", "Role", "b", "view"], ["alice", "User", "Role", "z", "view"],
       ["alice", "User", "Role", "a", "view"]] ∧
    lookup S sortExample matchAll =
      [["alice", "User", "Role", "a", "view"], ["alice", "User", "Role", "z", "view"],
       ["bob", "User", "Role", "b", "view"]] := by
  have hm : matchRows sortExample matchAll =
      [["bob", "User", "Role", "b", "view"], ["alice", "User", "Role", "z", "view"],
       ["alice", "User", "Role", "a", "view"]] := by decide
  refine ⟨(lookup_pairwise S perms re).chain', lookup_pairwise S perms re, hm, ?_⟩
  have hp : (lookup S sortExample matchAll).Perm
      [["bob", "User", "Role", "b", "view"], ["alice", "User", "Role", "z", "view"],
       ["alice", "User", "Role", "a", "view"]] := by
    have := S.perm (matchRows sortExample matchAll) less
    rw [hm] at this
    exact this
  refine @List.Perm.eq_of_sorted Row (fun a b => less b a = false) _ _ ?_
    (S.sorted _ less less_ordering) (by decide) (hp.trans (List.reverse_perm _).symm)
  intro a b ha hb
  have ha1 := hp.mem_iff.1 ha
  simp only [List.mem_cons, List.mem_singleton, List.not_mem_nil, or_false] at ha1 hb
  rcases ha1 with rfl | rfl | rfl <;> rcases hb with rfl | rfl | rfl <;> decide

/-! ### Pattern selection and the default pattern -/

theorem Sprintf_dotStar : fmt.Sprintf ".*" [] = ".*" := by decide

theorem compilePattern_default (Compile : String → Except GoError Regexp) :
    compilePattern Compile "" [] = Compile ".*" := by
  simp [compilePattern, Sprintf_dotStar]

theorem bindingRows_matchAll {ρ : Type} (perms : Permissions ρ) (re : Regexp)
    (hall : ∀ name, re.MatchString name = true) (b : RoleBinding) :
    bindingRows perms re b = if included perms b then b.Subjects.map (rowOf b) else [] := by
  cases hi : included perms b with
  | false => simp [bindingRows_excluded perms re b hi]
  | true => simp [bindingRows_included perms re b hi, hall]

theorem matchRows_matchAll {ρ : Type} (perms : Permissions ρ) (re : Regexp)
    (hall : ∀ name, re.MatchString name = true) : matchRows perms re = allPairRows perms := by
  rw [matchRows_eq]
  unfold allPairRows
  have h : bindingRows perms re =
      fun b => if included perms b then b.Subjects.map (rowOf b) else [] :=
    funext (bindingRows_matchAll perms re hall)
  rw [h]

theorem length_allPairRows {ρ : Type} (perms : Permissions ρ) :
    (allPairRows perms).length = pairCount perms := by
  unfold allPairRows pairCount
  rw [List.length_flatMap]
  congr 1
  apply List.map_congr_left
  intro e _
  simp only [Function.comp_apply]
  rw [List.length_flatMap]
  congr 1
  apply List.map_congr_left
  intro b _
  simp only [Function.comp_apply]
  split_ifs <;> simp

theorem pairCount_eq_scopePairCount {ρ : Type} (perms : Permissions ρ)
    (hkeyed : KeyedByNamespace perms) : pairCount perms = scopePairCount perms := by
  unfold pairCount scopePairCount
  congr 1
  apply List.map_congr_left
  intro e he
  have hb : ∀ b ∈ e.2, (if included perms b = true then b.Subjects.length else 0) =
      if exist perms.Roles e.1 = true then b.Subjects.length else 0 := by
    intro b hb
    unfold included
    rw [hkeyed e he b hb]
  rw [List.map_congr_left hb]
  split_ifs <;> simp

/-- C5: with no named pattern and no positional argument the command compiles
`.*`; when the compiled `.*` accepts every name (as the regular-expression
library has it: `.*` matches the empty string at the start of any input) and
the session and the graph are obtained, the command returns rows whose number
is the number of (binding, subject position) pairs over the bindings whose
scope (their namespace) is a key of `Roles`; the loop emits exactly the list
with one row `rowOf b s` per such pair, and the output is a permutation of it,
so no subject is skipped and none is emitted twice. When the bindings are
stored under their namespace, that number is the number of pairs over the map
entries whose key is a key of `Roles`. -/
theorem default_pattern_all_pairs {κ ρ : Type} (env : Env κ ρ) (clusterContext : String)
    (re : Regexp) (client : κ) (perms : Permissions ρ)
    (hre : env.Compile ".*" = .ok re) (hall : ∀ name, re.MatchString name = true)
    (hclient : env.NewClient clusterContext = .ok client)
    (hperms : env.NewPermissionsFromCluster client = .ok perms) :
    ∃ rows, RunE env clusterContext "" [] = .ok rows ∧
      rows.length = pairCount perms ∧
      matchRows perms re = allPairRows perms ∧
      rows.Perm (allPairRows perms) ∧
      (KeyedByNamespace perms → rows.length = scopePairCount perms) := by
  have hlen : (lookup env.sort perms re).length = pairCount perms := by
    rw [← length_allPairRows, ← matchRows_matchAll perms re hall]
    exact (env.sort.perm _ _).length_eq
  refine ⟨lookup env.sort perms re, ?_, ?_, matchRows_matchAll perms re hall, ?_,
    fun hkeyed => hlen.trans (pairCount_eq_scopePairCount perms hkeyed)⟩
  · simp [RunE, compilePattern_default, hre, hclient, hperms]
  · rw [← length_allPairRows, ← matchRows_matchAll perms re hall]
    exact (env.sort.perm _ _).length_eq
  · rw [← matchRows_matchAll perms re hall]
    exact env.sort.perm _ _

/-- C5 at `mixedExample`: four pairs have an included scope, and the command
returns four rows, among them those of the empty name and of the name with a
line break. -/
theorem default_pattern_all_pairs_witness :
    pairCount mixedExample = 4 ∧ scopePairCount mixedExample = 4 ∧
    RunE (exampleEnv mixedExample) "" "" [] =
      .ok [["", "User", "ClusterRole", "", "cluster-admin"],
           ["alice", "User", "Role", "dev", "edit"],
           ["bob", "ServiceAccount", "Role", "dev", "edit"],
           ["ops\nteam", "Group", "ClusterRole", "", "cluster-admin"]] ∧
    ∃ rows, RunE (exampleEnv mixedExample) "" "" [] = .ok rows ∧
      rows.length = pairCount mixedExample ∧
      matchRows mixedExample matchAll = allPairRows mixedExample ∧
      rows.Perm (allPairRows mixedExample) ∧
      (KeyedByNamespace mixedExample → rows.length = scopePairCount mixedExample) :=
  ⟨by decide, by decide, rfl,
    default_pattern_all_pairs (exampleEnv mixedExample) "" matchAll () mixedExample rfl
      (fun _ => rfl) rfl rfl⟩

/-! ### Completeness and soundness of the loop -/

theorem rowOf_cols (b : RoleBinding) (s : Subject) :
    colSubject (rowOf b s) = s.Name ∧ colKind (rowOf b s) = s.Kind ∧
      colRole (rowOf b s) = b.RoleRef.Name ∧ colNamespace (rowOf b s) = b.Namespace := by
  by_cases hn : b.Namespace = "" <;> simp [rowOf, hn, colSubject, colKind, colRole, colNamespace]

theorem rowOf_shape (b : RoleBinding) (s : Subject) :
    ∃ label, (label = "ClusterRole" ∨ label = "Role") ∧
      rowOf b s = [s.Name, s.Kind, label, b.Namespace, b.RoleRef.Name] := by
  by_cases hn : b.Namespace = ""
  · exact ⟨"ClusterRole", Or.inl rfl, by simp [rowOf, hn]⟩
  · exact ⟨"Role", Or.inr rfl, by simp [rowOf, hn]⟩

/-- C6: let `b` be a binding of the graph whose scope is included. For every
position `i` of `b.Subjects` whose name the matcher accepts, the output
contains the row of that subject, with its name, its kind and the role name of
`b`. The rows contributed by `b` are as many as the matching positions of
`b.Subjects`, they all carry the role name of `b`, and the loop emits the
concatenation of the rows contributed by the bindings. -/
theorem fan_out_complete {ρ : Type} (S : SliceSorter) (perms : Permissions ρ) (re : Regexp)
    (e : String × List RoleBinding) (b : RoleBinding)
    (he : e ∈ perms.RoleBindings) (hb : b ∈ e.2) (hinc : included perms b = true) :
    (∀ (i : Nat) (hi : i < b.Subjects.length),
      re.MatchString (b.Subjects.get ⟨i, hi⟩).Name = true →
      ∃ row ∈ lookup S perms re,
        row = rowOf b (b.Subjects.get ⟨i, hi⟩) ∧
        colSubject row = (b.Subjects.get ⟨i, hi⟩).Name ∧
        colKind row = (b.Subjects.get ⟨i, hi⟩).Kind ∧
        colRole row = b.RoleRef.Name) ∧
    (bindingRows perms re b).length = b.Subjects.countP (fun s => re.MatchString s.Name) ∧
    (∀ row ∈ bindingRows perms re b, colRole row = b.RoleRef.Name) ∧
    matchRows perms re =
      perms.RoleBindings.flatMap fun e => e.2.flatMap (bindingRows perms re) := by
  refine ⟨?_, ?_, ?_, matchRows_eq perms re⟩
  · intro i hi hm
    refine ⟨rowOf b (b.Subjects.get ⟨i, hi⟩), ?_, rfl, (rowOf_cols _ _).1, (rowOf_cols _ _).2.1,
      (rowOf_cols _ _).2.2.1⟩
    rw [mem_lookup, mem_matchRows]
    refine ⟨e, he, b, hb, ?_⟩
    rw [mem_bindingRows]
    exact ⟨hinc, _, List.get_mem _ _ _, hm, rfl⟩
  · rw [bindingRows_included perms re b hinc, List.length_map, List.countP_eq_length_filter]
  · intro row hrow
    obtain ⟨-, s, -, -, rfl⟩ := (mem_bindingRows perms re b row).1 hrow
    exact (rowOf_cols b s).2.2.1

/-- C6 at `mixedExample`: the binding of `dev` names `alice` and `bob`, both
accepted, and contributes two rows with the role `edit`; the row of `bob`
(position 1) is in the output. -/
theorem fan_out_complete_witness :
    bindingRows mixedExample matchAll
        ⟨"dev", [⟨"alice", "User"⟩, ⟨"bob", "ServiceAccount"⟩], ⟨"edit"⟩⟩ =
      [["alice", "User", "Role", "dev", "edit"], ["bob", "ServiceAccount", "Role", "dev", "edit"]] ∧
    ∃ row ∈ lookup insertionSorter mixedExample matchAll,
      row = ["bob", "ServiceAccount", "Role", "dev", "edit"] ∧
      colSubject row = "bob" ∧ colKind row = "ServiceAccount" ∧ colRole row = "edit" :=
  ⟨by decide,
    (fan_out_complete insertionSorter mixedExample matchAll
      ("dev", [⟨"dev", [⟨"alice", "User"⟩, ⟨"bob", "ServiceAccount"⟩], ⟨"edit"⟩⟩])
      ⟨"dev", [⟨"alice", "User"⟩, ⟨"bob", "ServiceAccount"⟩], ⟨"edit"⟩⟩
      (by decide) (by decide) (by decide)).1 1 (by decide) (by decide)⟩

/-- C7: every output row comes from the graph: it is
`[s.Name, s.Kind, label, b.Namespace, b.RoleRef.Name]`, with `label` one of
`ClusterRole` and `Role`, for a binding `b` of `RoleBindings` and a subject `s`
of `b` whose name the matcher accepts; so the subject column of every output
row is accepted by the matcher, and a matcher that rejects every name gives the
empty output. -/
theorem lookup_sound {ρ : Type} (S : SliceSorter) (perms : Permissions ρ) (re : Regexp) :
    (∀ row ∈ lookup S perms re,
      ∃ e ∈ perms.RoleBindings, ∃ b ∈ e.2, ∃ s ∈ b.Subjects,
        re.MatchString s.Name = true ∧
        ∃ label, (label = "ClusterRole" ∨ label = "Role") ∧
          row = [s.Name, s.Kind, label, b.Namespace, b.RoleRef.Name]) ∧
    (∀ row ∈ lookup S perms re, re.MatchString (colSubject row) = true) ∧
    ((∀ name, re.MatchString name = false) → lookup S perms re = []) := by
  have origin : ∀ row ∈ lookup S perms re,
      ∃ e ∈ perms.RoleBindings, ∃ b ∈ e.2, ∃ s ∈ b.Subjects,
        re.MatchString s.Name = true ∧ row = rowOf b s := by
    intro row hrow
    obtain ⟨e, he, b, hb, hrb⟩ :=
      (mem_matchRows perms re row).1 ((mem_lookup S perms re row).1 hrow)
    obtain ⟨-, s, hs, hm, rfl⟩ := (mem_bindingRows perms re b row).1 hrb
    exact ⟨e, he, b, hb, s, hs, hm, rfl⟩
  refine ⟨?_, ?_, ?_⟩
  · intro row hrow
    obtain ⟨e, he, b, hb, s, hs, hm, rfl⟩ := origin row hrow
    exact ⟨e, he, b, hb, s, hs, hm, rowOf_shape b s⟩
  · intro row hrow
    obtain ⟨e, he, b, hb, s, hs, hm, rfl⟩ := origin row hrow
    rw [(rowOf_cols b s).1]
    exact hm
  · intro hnone
    apply List.eq_nil_iff_forall_not_mem.2
    intro row hrow
    obtain ⟨e, he, b, hb, s, hs, hm, -⟩ := origin row hrow
    rw [hnone s.Name] at hm
    exact Bool.noConfusion hm

/-! ### The specified algorithm, pattern selection, and the role map -/

theorem flatMap_congr_mem {α β : Type} (l : List α) (f g : α → List β)
    (h : ∀ x ∈ l, f x = g x) : l.flatMap f = l.flatMap g := by
  induction l with
  | nil => rfl
  | cons a l ih =>
    rw [List.flatMap_cons, List.flatMap_cons, h a (List.mem_cons_self _ _),
      ih fun x hx => h x (List.mem_cons_of_mem _ hx)]

theorem specBindingRows_eq (m : String → Bool) (b : RoleBinding) :
    specBindingRows m b = (b.Subjects.filter fun s => m s.Name).map (rowOf b) := by
  unfold specBindingRows
  have h : (fun subj : Subject =>
      if m subj.Name = true then
        [[subj.Name, subj.Kind, if b.Namespace = "" then "ClusterRole" else "Role",
          if b.Namespace = "" then "" else b.Namespace, b.RoleRef.Name]]
      else []) = fun subj => if m subj.Name = true then [rowOf b subj] else [] := by
    funext subj
    by_cases hn : b.Namespace = "" <;> simp [rowOf, hn]
  rw [h, flatMap_ite_singleton]
  simp

/-- C8: when every binding is stored under its own namespace, the loop of the
code (matcher first, then the test of `Roles[binding.Namespace]` for each
subject) emits the row sequence of the specified algorithm (skip a scope whose
key is not in `rolesByScope`, else one row per matching subject in order),
for the same enumeration order of the map; so the sorted outputs agree. -/
theorem matchRows_refines_spec {ρ : Type} (S : SliceSorter) (perms : Permissions ρ)
    (re : Regexp) (hkeyed : KeyedByNamespace perms) :
    matchRows perms re = specRows perms re.MatchString ∧
    lookup S perms re = S.Slice (specRows perms re.MatchString) less := by
  have h : matchRows perms re = specRows perms re.MatchString := by
    rw [matchRows_eq]
    unfold specRows
    apply flatMap_congr_mem
    intro e he
    cases hex : exist perms.Roles e.1 with
    | false =>
      simp only [Bool.false_eq_true, if_false, List.flatMap_eq_nil_iff]
      intro b hb
      apply bindingRows_excluded
      unfold included
      rw [hkeyed e he b hb]
      exact hex
    | true =>
      simp only [if_true]
      apply flatMap_congr_mem
      intro b hb
      rw [specBindingRows_eq]
      apply bindingRows_included
      unfold included
      rw [hkeyed e he b hb]
      exact hex
  refine ⟨h, ?_⟩
  unfold lookup
  rw [h]

/-- C8 at `orphanScope`, a graph keyed by namespace; on `misfiled`, which is
not, the two row sequences differ. -/
theorem matchRows_refines_spec_witness :
    KeyedByNamespace orphanScope ∧
    matchRows orphanScope matchAll = specRows orphanScope matchAll.MatchString ∧
    specRows orphanScope matchAll.MatchString = [["bob", "User", "Role", "prod", "view"]] ∧
    matchRows misfiled matchAll ≠ specRows misfiled matchAll.MatchString :=
  ⟨by unfold KeyedByNamespace; decide,
    (matchRows_refines_spec insertionSorter orphanScope matchAll
      (by unfold KeyedByNamespace; decide)).1,
    by decide, by decide⟩

theorem Sprintf_flagged (a : String) : fmt.Sprintf "(?mi)%v" [a] = "(?mi)" ++ a := by
  have h : "(?mi)%v".toList = ['(', '?', 'm', 'i', ')', '%', 'v'] := rfl
  cases a with
  | mk cs =>
    unfold fmt.Sprintf
    rw [h]
    simp [fmt.expand, fmt.extra]
    rfl

/-- C9: the string handed to `regexp.Compile` depends on the named pattern and
the positional arguments only: the named pattern itself when it is not empty;
else `(?mi)` followed by the argument when there is exactly one argument; else
(no argument, or two and more) `.*`. The command fails with the error of the
compiler on that string, and otherwise goes on with the matcher compiled from
it. -/
theorem pattern_selection {κ ρ : Type} (env : Env κ ρ) (clusterContext regex : String)
    (args : List String) :
    compilePattern env.Compile regex args =
      env.Compile (if regex ≠ "" then regex else
        match args with
        | [a] => "(?mi)" ++ a
        | _ => ".*") ∧
    RunE env clusterContext regex args =
      match env.Compile (if regex ≠ "" then regex else
        match args with
        | [a] => "(?mi)" ++ a
        | _ => ".*") with
      | .error err => .error err
      | .ok re => RunE { env with Compile := fun _ => .ok re } clusterContext regex args := by
  have h : compilePattern env.Compile regex args =
      env.Compile (if regex ≠ "" then regex else
        match args with
        | [a] => "(?mi)" ++ a
        | _ => ".*") := by
    unfold compilePattern
    by_cases hr : regex = ""
    · subst hr
      match args with
      | [] => simp [Sprintf_dotStar]
      | [a] => simp [Sprintf_flagged]
      | a :: b :: l => simp [Sprintf_dotStar]
    · simp [hr]
  refine ⟨h, ?_⟩
  have hconst : ∀ re : Regexp, compilePattern (fun _ => Except.ok re) regex args = .ok re := by
    intro re
    unfold compilePattern
    split_ifs <;> rfl
  unfold RunE
  rw [h]
  split
  · rfl
  · simp [hconst]

theorem exist_congr {V W : Type} (m : List (String × V)) (m' : List (String × W))
    (hkeys : ∀ k, k ∈ keys m ↔ k ∈ keys m') (k : String) : exist m k = exist m' k := by
  have h := hkeys k
  rw [← exist_iff_mem_keys, ← exist_iff_mem_keys] at h
  cases h1 : exist m k <;> cases h2 : exist m' k <;> simp_all

theorem subjectStep_congr {ρ σ : Type} (perms : Permissions ρ) (perms' : Permissions σ)
    (hex : ∀ k, exist perms.Roles k = exist perms'.Roles k) (re : Regexp) :
    subjectStep perms re = subjectStep perms' re := by
  funext b rows s
  unfold subjectStep
  rw [hex]

theorem matchRows_congr {ρ σ : Type} (perms : Permissions ρ) (perms' : Permissions σ)
    (hb : perms.RoleBindings = perms'.RoleBindings)
    (hex : ∀ k, exist perms.Roles k = exist perms'.Roles k) (re : Regexp) :
    matchRows perms re = matchRows perms' re := by
  unfold matchRows scopeStep bindingStep
  rw [subjectStep_congr perms perms' hex, hb]

/-- C10: two graphs with the same `RoleBindings` whose `Roles` maps have the
same keys give the same rows, for every matcher and whatever the role lists
hold, even roles of another type; emptying every role list changes nothing,
and every row of a binding `b` carries `b.RoleRef.Name`, whether or not
`Roles` holds a role of that name. -/
theorem roles_only_through_keys {ρ σ : Type} (S : SliceSorter)
    (bindings : List (String × List RoleBinding)) (roles : List (String × List ρ))
    (roles' : List (String × List σ)) (re : Regexp)
    (hkeys : ∀ k, k ∈ keys roles ↔ k ∈ keys roles') :
    lookup S ⟨roles, bindings⟩ re = lookup S ⟨roles', bindings⟩ re ∧
    lookup S ⟨roles, bindings⟩ re =
      lookup S ⟨roles.map fun e => (e.1, ([] : List ρ)), bindings⟩ re ∧
    (∀ b : RoleBinding, ∀ row ∈ bindingRows ⟨roles, bindings⟩ re b,
      colRole row = b.RoleRef.Name) := by
  refine ⟨?_, ?_, ?_⟩
  · unfold lookup
    rw [matchRows_congr ⟨roles, bindings⟩ ⟨roles', bindings⟩ rfl (exist_congr roles roles' hkeys)]
  · unfold lookup
    rw [matchRows_congr ⟨roles, bindings⟩ ⟨roles.map fun e => (e.1, ([] : List ρ)), bindings⟩ rfl
      (exist_congr _ _ (by intro k; simp [keys]))]
  · intro b row hrow
    obtain ⟨-, s, -, -, rfl⟩ := (mem_bindingRows _ re b row).1 hrow
    exact (rowOf_cols b s).2.2.1

/-- C10 at `tieExample`: the role list of `dev` is empty there; with a role
list naming `edit` only, the rows are the same, the row of the role `view`
included. -/
theorem roles_only_through_keys_witness :
    lookup insertionSorter
        (⟨[("dev", ([] : List String))], tieExample.RoleBindings⟩ : Permissions String) matchAll =
      lookup insertionSorter
        (⟨[("dev", ["edit"])], tieExample.RoleBindings⟩ : Permissions String) matchAll ∧
    lookup insertionSorter
        (⟨[("dev", ["edit"])], tieExample.RoleBindings⟩ : Permissions String) matchAll =
      [["alice", "User", "Role", "dev", "edit"], ["alice", "User", "Role", "dev", "view"]] :=
  ⟨(roles_only_through_keys insertionSorter tieExample.RoleBindings
      [("dev", ([] : List String))] [("dev", ["edit"])] matchAll (by intro k; rfl)).1,
    by decide⟩

/-! ### Errors -/

theorem Sprintf_failed (a : String) :
    fmt.Sprintf "Failed to create kubernetes client - %v" [a] =
      "Failed to create kubernetes client - " ++ a := by
  have h : "Failed to create kubernetes client - %v".toList =
      "Failed to create kubernetes client - ".toList ++ ['%', 'v'] := rfl
  cases a with
  | mk cs =>
    unfold fmt.Sprintf
    rw [h]
    simp [fmt.expand, fmt.extra]
    rfl

theorem wrapped_ne (e : GoError) :
    (⟨"Failed to create kubernetes client - " ++ e.msg⟩ : GoError) ≠ e := by
  intro h
  have hm : "Failed to create kubernetes client - " ++ e.msg = e.msg := congrArg GoError.msg h
  have hl := congrArg String.length hm
  rw [String.length_append] at hl
  have : "Failed to create kubernetes client - ".length = 37 := by decide
  omega

/-- C11 as stated fails: with `offlineEnv` the session factory fails with the
error `no such context`, and the command returns another error, whose message
is `Failed to create kubernetes client - no such context`. -/
theorem connection_error_counterexample :
    offlineEnv.NewClient "" = .error ⟨"no such context"⟩ ∧
    RunE offlineEnv "" "" [] =
      .error ⟨"Failed to create kubernetes client - no such context"⟩ ∧
    RunE offlineEnv "" "" [] ≠ .error ⟨"no such context"⟩ := by
  refine ⟨rfl, rfl, ?_⟩
  intro h
  have h2 : RunE offlineEnv "" "" [] =
      .error ⟨"Failed to create kubernetes client - no such context"⟩ := rfl
  rw [h2] at h
  injection h with h
  exact absurd h (by decide)

/-- C11 (amended): when the pattern compiles and the session factory fails
with an error `e`, the command returns a new error whose message is
`Failed to create kubernetes client - ` followed by the message of `e` (never
`e` itself); the graph builder and the match loop are not run: the result is
the same whatever the graph builder and the sorter are. -/
theorem connection_error_wrapped {κ ρ : Type} (env : Env κ ρ) (clusterContext regex : String)
    (args : List String) (re : Regexp) (e : GoError)
    (hre : compilePattern env.Compile regex args = .ok re)
    (hclient : env.NewClient clusterContext = .error e) :
    RunE env clusterContext regex args =
      .error ⟨"Failed to create kubernetes client - " ++ e.msg⟩ ∧
    RunE env clusterContext regex args ≠ .error e ∧
    (∀ (build : κ → Except GoError (Permissions ρ)) (sorter : SliceSorter),
      RunE { env with NewPermissionsFromCluster := build, sort := sorter }
          clusterContext regex args =
        .error ⟨"Failed to create kubernetes client - " ++ e.msg⟩) := by
  have h : RunE env clusterContext regex args =
      .error ⟨"Failed to create kubernetes client - " ++ e.msg⟩ := by
    simp [RunE, hre, hclient, Sprintf_failed]
  refine ⟨h, ?_, ?_⟩
  · rw [h]
    intro hc
    injection hc with hc
    exact wrapped_ne e hc
  · intro build sorter
    simp [RunE, hre, hclient, Sprintf_failed]

/-- C11 (amended) at `offlineEnv`. -/
theorem connection_error_wrapped_witness :
    RunE offlineEnv "" "" [] =
      .error ⟨"Failed to create kubernetes client - " ++ "no such context"⟩ :=
  (connection_error_wrapped offlineEnv "" "" [] matchAll ⟨"no such context"⟩ rfl rfl).1

theorem slice_nil (S : SliceSorter) {α : Type} (lt : α → α → Bool) : S.Slice [] lt = [] :=
  List.Perm.eq_nil (S.perm [] lt)

theorem lookup_eq_nil_of_matchRows {ρ : Type} (S : SliceSorter) (perms : Permissions ρ)
    (re : Regexp) (h : matchRows perms re = []) : lookup S perms re = [] := by
  unfold lookup
  rw [h]
  exact slice_nil S less

theorem matchRows_eq_nil_of_reject {ρ : Type} (perms : Permissions ρ) (re : Regexp)
    (hnone : ∀ name, re.MatchString name = false) : matchRows perms re = [] := by
  apply List.eq_nil_iff_forall_not_mem.2
  intro row hrow
  obtain ⟨e, -, b, -, hb⟩ := (mem_matchRows perms re row).1 hrow
  obtain ⟨-, s, -, hm, -⟩ := (mem_bindingRows perms re b row).1 hb
  rw [hnone s.Name] at hm
  exact Bool.noConfusion hm

/-- C12: the command fails fast and emits no partial result. It succeeds
exactly when pattern compilation, client creation and graph construction all
succeed, and fails exactly when one of them fails. When compilation fails the
error of the compiler is returned whatever the session factory and the graph
builder are (they are not called); when the graph builder fails its error is
returned as it is; a failing run returns no rows; and when all three succeed
the command returns the sorted rows, the empty sequence if no name matches. -/
theorem fail_fast {κ ρ : Type} (env : Env κ ρ) (clusterContext regex : String)
    (args : List String) :
    ((∃ rows, RunE env clusterContext regex args = .ok rows) ↔
      ∃ re client perms, compilePattern env.Compile regex args = .ok re ∧
        env.NewClient clusterContext = .ok client ∧
        env.NewPermissionsFromCluster client = .ok perms) ∧
    ((∃ err, RunE env clusterContext regex args = .error err) ↔
      (∃ err, compilePattern env.Compile regex args = .error err) ∨
      (∃ err, env.NewClient clusterContext = .error err) ∨
      (∃ client err, env.NewClient clusterContext = .ok client ∧
        env.NewPermissionsFromCluster client = .error err)) ∧
    (∀ err, compilePattern env.Compile regex args = .error err →
      ∀ (newClient : String → Except GoError κ) (build : κ → Except GoError (Permissions ρ)),
        RunE { env with NewClient := newClient, NewPermissionsFromCluster := build }
          clusterContext regex args = .error err) ∧
    (∀ re client err, compilePattern env.Compile regex args = .ok re →
      env.NewClient clusterContext = .ok client →
      env.NewPermissionsFromCluster client = .error err →
      RunE env clusterContext regex args = .error err) ∧
    (∀ err, RunE env clusterContext regex args = .error err →
      ∀ rows, RunE env clusterContext regex args ≠ .ok rows) ∧
    (∀ re client perms, compilePattern env.Compile regex args = .ok re →
      env.NewClient clusterContext = .ok client →
      env.NewPermissionsFromCluster client = .ok perms →
      RunE env clusterContext regex args = .ok (lookup env.sort perms re) ∧
      ((∀ name, re.MatchString name = false) →
        RunE env clusterContext regex args = .ok [])) := by
  refine ⟨?_, ?_, ?_, ?_, ?_, ?_⟩
  · rcases hc : compilePattern env.Compile regex args with err | re
    · simp [RunE, hc]
    · rcases hn : env.NewClient clusterContext with err | client
      · simp [RunE, hc, hn]
      · rcases hp : env.NewPermissionsFromCluster client with err | perms
        · simp [RunE, hc, hn, hp]
        · simp [RunE, hc, hn, hp]
  · rcases hc : compilePattern env.Compile regex args with err | re
    · simp [RunE, hc]
    · rcases hn : env.NewClient clusterContext with err | client
      · simp [RunE, hc, hn]
      · rcases hp : env.NewPermissionsFromCluster client with err | perms
        · simp [RunE, hc, hn, hp]
        · simp [RunE, hc, hn, hp]
  · intro err hc newClient build
    simp [RunE, hc]
  · intro re client err hc hn hp
    simp [RunE, hc, hn, hp]
  · intro err herr rows hrows
    rw [herr] at hrows
    exact Except.noConfusion hrows
  · intro re client perms hc hn hp
    have h : RunE env clusterContext regex args = .ok (lookup env.sort perms re) := by
      simp [RunE, hc, hn, hp]
    refine ⟨h, fun hnone => ?_⟩
    rw [h, lookup_eq_nil_of_matchRows _ _ _ (matchRows_eq_nil_of_reject perms re hnone)]

/-- C13: when `RoleBindings` is empty the loop emits nothing and `lookup`
returns the empty row sequence, for every matcher and every `Roles`; a command
whose graph builder returns such a graph succeeds with the empty sequence. -/
theorem empty_graph {κ ρ : Type} (S : SliceSorter) (roles : List (String × List ρ))
    (re : Regexp) :
    matchRows ⟨roles, []⟩ re = [] ∧
    lookup S ⟨roles, []⟩ re = [] ∧
    (∀ (env : Env κ ρ) (clusterContext regex : String) (args : List String) (client : κ),
      compilePattern env.Compile regex args = .ok re →
      env.NewClient clusterContext = .ok client →
      env.NewPermissionsFromCluster client = .ok ⟨roles, []⟩ →
      RunE env clusterContext regex args = .ok []) := by
  have h : matchRows (⟨roles, []⟩ : Permissions ρ) re = [] := rfl
  refine ⟨h, lookup_eq_nil_of_matchRows S _ re h, ?_⟩
  intro env clusterContext regex args client hc hn hp
  simp [RunE, hc, hn, hp, lookup_eq_nil_of_matchRows env.sort _ re h]

/-! ### Case-insensitive positional matching -/

theorem matchHere_iff (eq : Char → Char → Bool) (lit s : List Char) :
    matchHere eq lit s = true ↔
      ∃ w, w <+: s ∧ List.Forall₂ (fun p c => eq p c = true) lit w := by
  induction lit generalizing s with
  | nil =>
    simp only [matchHere, true_iff]
    exact ⟨[], List.nil_prefix, List.Forall₂.nil⟩
  | cons p ps ih =>
    cases s with
    | nil =>
      simp only [matchHere, Bool.false_eq_true, false_iff]
      rintro ⟨w, hw, hf⟩
      rw [List.prefix_nil] at hw
      subst hw
      cases hf
    | cons c cs =>
      simp only [matchHere, Bool.and_eq_true, ih]
      constructor
      · rintro ⟨hpc, w, hw, hf⟩
        exact ⟨c :: w, (List.cons_prefix_cons).2 ⟨rfl, hw⟩, List.Forall₂.cons hpc hf⟩
      · rintro ⟨w, hw, hf⟩
        cases hf with
        | cons hpc hf' =>
          rename_i c' w'
          obtain ⟨rfl, hw'⟩ := (List.cons_prefix_cons).1 hw
          exact ⟨hpc, w', hw', hf'⟩

theorem search_iff (eq : Char → Char → Bool) (lit s : List Char) :
    search eq lit s = true ↔
      ∃ w, w <:+: s ∧ List.Forall₂ (fun p c => eq p c = true) lit w := by
  induction s with
  | nil =>
    simp only [search, matchHere_iff]
    constructor
    · rintro ⟨w, hw, hf⟩
      exact ⟨w, hw.isInfix, hf⟩
    · rintro ⟨w, hw, hf⟩
      rw [List.infix_nil] at hw
      subst hw
      exact ⟨[], List.nil_prefix, hf⟩
  | cons c cs ih =>
    simp only [search, Bool.or_eq_true, matchHere_iff, ih]
    constructor
    · rintro (⟨w, hw, hf⟩ | ⟨w, hw, hf⟩)
      · exact ⟨w, hw.isInfix, hf⟩
      · exact ⟨w, List.infix_cons hw, hf⟩
    · rintro ⟨w, hw, hf⟩
      rcases List.infix_cons_iff.1 hw with h | h
      · exact Or.inl ⟨w, h, hf⟩
      · exact Or.inr ⟨w, h, hf⟩

theorem char_eq_of_toNat (p : Char) (n : Nat) (h : p.toNat = n) : p = Char.ofNat n := by
  rw [← h, Char.ofNat_toNat]

theorem foldEq_eq_asciiCaseEq (p c : Char)
    (hp : p ≠ 'k' ∧ p ≠ 'K' ∧ p ≠ 's' ∧ p ≠ 'S') : foldEq p c = asciiCaseEq p c := by
  have h1 : p.toNat ≠ 107 := fun h => hp.1 (char_eq_of_toNat p 107 h)
  have h2 : p.toNat ≠ 75 := fun h => hp.2.1 (char_eq_of_toNat p 75 h)
  have h3 : p.toNat ≠ 115 := fun h => hp.2.2.1 (char_eq_of_toNat p 115 h)
  have h4 : p.toNat ≠ 83 := fun h => hp.2.2.2 (char_eq_of_toNat p 83 h)
  have e1 : ((p.toNat == 75 || p.toNat == 107) && c.toNat == 0x212A) = false := by
    simp [h1, h2]
  have e2 : ((p.toNat == 83 || p.toNat == 115) && c.toNat == 0x17F) = false := by
    simp [h3, h4]
  unfold foldEq asciiCaseEq
  rw [e1, e2, Bool.or_false, Bool.or_false]

theorem matchHere_congr (eq eq' : Char → Char → Bool) (lit s : List Char)
    (h : ∀ p ∈ lit, ∀ c ∈ s, eq p c = eq' p c) :
    matchHere eq lit s = matchHere eq' lit s := by
  induction lit generalizing s with
  | nil => rfl
  | cons p ps ih =>
    cases s with
    | nil => rfl
    | cons c cs =>
      simp only [matchHere]
      rw [h p (List.mem_cons_self _ _) c (List.mem_cons_self _ _),
        ih cs fun q hq d hd => h q (List.mem_cons_of_mem _ hq) d (List.mem_cons_of_mem _ hd)]

theorem search_congr (eq eq' : Char → Char → Bool) (lit s : List Char)
    (h : ∀ p ∈ lit, ∀ c ∈ s, eq p c = eq' p c) :
    search eq lit s = search eq' lit s := by
  induction s with
  | nil => simp only [search, matchHere_congr eq eq' lit [] h]
  | cons c cs ih =>
    simp only [search, matchHere_congr eq eq' lit (c :: cs) h,
      ih fun p hp d hd => h p hp d (List.mem_cons_of_mem _ hd)]

theorem foldEq_eq_asciiCaseEq_of_ascii (p c : Char) (hc : c.toNat < 128) :
    foldEq p c = asciiCaseEq p c := by
  have e1 : ((p.toNat == 75 || p.toNat == 107) && c.toNat == 0x212A) = false := by
    have : c.toNat ≠ 0x212A := by omega
    simp [this]
  have e2 : ((p.toNat == 83 || p.toNat == 115) && c.toNat == 0x17F) = false := by
    have : c.toNat ≠ 0x17F := by omega
    simp [this]
  unfold foldEq asciiCaseEq
  rw [e1, e2, Bool.or_false, Bool.or_false]

theorem compilePattern_positional (Compile : String → Except GoError Regexp) (arg : String) :
    compilePattern Compile "" [arg] = Compile ("(?mi)" ++ arg) := by
  simp [compilePattern, Sprintf_flagged]

theorem foldingCompile_conforms : FoldingCompiler foldingCompile := by
  intro arg _
  cases arg with
  | mk cs => rfl

/-- C14 as stated fails in its general part: the argument `k` is compiled to
`(?mi)k`, whose matcher accepts the name made of the Kelvin sign U+212A, in
which `k` does not occur up to ASCII case. -/
theorem positional_matching_counterexample :
    (∀ c ∈ "k".data, c.isAlphanum = true) ∧
    compilePattern foldingCompile "" ["k"] = .ok (literalFold "k") ∧
    (literalFold "k").MatchString kelvinName = true ∧
    occursUpToAsciiCase "k" kelvinName = false := by
  refine ⟨by decide, rfl, by decide, by decide⟩

/-- C14 (amended): the positional argument `alice` is compiled as
`(?mi)alice`, and the matcher accepts `Alice`, `ALICE42` and `xalice` and
rejects `bob`. For a positional argument made of ASCII letters and digits the
matcher accepts a name exactly when the argument occurs in it as a substring
up to simple case folding (`foldEq`: ASCII case, and U+212A for `k`, U+017F for
`s`); this is occurrence up to ASCII case when the argument has no `k`, `K`,
`s`, `S`, and for every argument when the name is ASCII. -/
theorem positional_matching {κ ρ : Type} (env : Env κ ρ)
    (hlib : FoldingCompiler env.Compile) :
    (∃ re, compilePattern env.Compile "" ["alice"] = .ok re ∧
      re.MatchString "Alice" = true ∧ re.MatchString "ALICE42" = true ∧
      re.MatchString "xalice" = true ∧ re.MatchString "bob" = false) ∧
    (∀ arg : String, (∀ c ∈ arg.data, c.isAlphanum = true) →
      ∃ re, compilePattern env.Compile "" [arg] = .ok re ∧
        (∀ name : String, re.MatchString name = true ↔
          ∃ w, w <:+: name.data ∧
            List.Forall₂ (fun p c => foldEq p c = true) arg.data w) ∧
        ((∀ p ∈ arg.data, p ≠ 'k' ∧ p ≠ 'K' ∧ p ≠ 's' ∧ p ≠ 'S') →
          ∀ name : String, re.MatchString name = true ↔
            ∃ w, w <:+: name.data ∧
              List.Forall₂ (fun p c => asciiCaseEq p c = true) arg.data w) ∧
        (∀ name : String, (∀ c ∈ name.data, c.toNat < 128) →
          (re.MatchString name = true ↔
            ∃ w, w <:+: name.data ∧
              List.Forall₂ (fun p c => asciiCaseEq p c = true) arg.data w))) := by
  constructor
  · refine ⟨literalFold "alice", ?_, by decide, by decide, by decide, by decide⟩
    rw [compilePattern_positional]
    exact hlib "alice" (by decide)
  · intro arg halnum
    refine ⟨literalFold arg, ?_, ?_, ?_, ?_⟩
    · rw [compilePattern_positional]
      exact hlib arg halnum
    · intro name
      exact search_iff foldEq arg.data name.data
    · intro hks name
      rw [← search_iff]
      show search foldEq arg.data name.data = true ↔ _
      rw [search_congr foldEq asciiCaseEq arg.data name.data
        fun p hp c _ => foldEq_eq_asciiCaseEq p c (hks p hp)]
    · intro name hascii
      rw [← search_iff]
      show search foldEq arg.data name.data = true ↔ _
      rw [search_congr foldEq asciiCaseEq arg.data name.data
        fun p _ c hc => foldEq_eq_asciiCaseEq_of_ascii p c (hascii c hc)]

/-- C14 (amended) at the example compiler: the command run with the argument
`alice` on `mixedExample` returns the row of `alice` only. -/
theorem positional_matching_witness :
    FoldingCompiler foldingCompile ∧
    RunE { exampleEnv mixedExample with Compile := foldingCompile } "" "" ["alice"] =
      .ok [["alice", "User", "Role", "dev", "edit"]] ∧
    ∃ re, compilePattern foldingCompile "" ["alice"] = .ok re ∧
      re.MatchString "Alice" = true ∧ re.MatchString "ALICE42" = true ∧
      re.MatchString "xalice" = true ∧ re.MatchString "bob" = false :=
  ⟨foldingCompile_conforms, rfl,
    (positional_matching { exampleEnv mixedExample with Compile := foldingCompile }
      foldingCompile_conforms).1⟩

/-! ### The comparator as an order, and the sorter as a permutation -/

theorem less_iff_bytes (a b : Row) :
    less a b = true ↔
      strings.bytes (colSubject a) < strings.bytes (colSubject b) ∨
        (colSubject a = colSubject b ∧
          strings.bytes (colNamespace a) < strings.bytes (colNamespace b)) := by
  rw [less_iff, bytes_lt_iff, bytes_lt_iff]

/-- C15: the less function is the two-key comparison: `less a b` holds exactly
when the subject of `a` is below that of `b` in byte order, or the subjects are
equal and the namespace of `a` is below that of `b`. It is irreflexive and
transitive, incomparability under it is transitive, two rows that differ in
subject or in namespace are ordered one way or the other, and when the
subjects differ the result does not depend on the namespaces. -/
theorem two_key_comparator :
    (∀ a b : Row, less a b = true ↔
      strings.bytes (colSubject a) < strings.bytes (colSubject b) ∨
        (colSubject a = colSubject b ∧
          strings.bytes (colNamespace a) < strings.bytes (colNamespace b))) ∧
    (∀ a : Row, less a a = false) ∧
    (∀ a b c : Row, less a b = true → less b c = true → less a c = true) ∧
    (∀ a b c : Row, (less a b = false ∧ less b a = false) →
      (less b c = false ∧ less c b = false) → (less a c = false ∧ less c a = false)) ∧
    (∀ a b : Row, colSubject a ≠ colSubject b ∨ colNamespace a ≠ colNamespace b →
      less a b = true ∨ less b a = true) ∧
    (∀ a b a' b' : Row, colSubject a = colSubject a' → colSubject b = colSubject b' →
      colSubject a ≠ colSubject b → less a b = less a' b') := by
  refine ⟨less_iff_bytes, less_ordering.irrefl, less_ordering.trans, ?_, ?_, ?_⟩
  · rintro a b c ⟨hab, hba⟩ ⟨hbc, hcb⟩
    exact ⟨less_ordering.ntrans a b c hab hbc, less_ordering.ntrans c b a hcb hba⟩
  · intro a b hne
    by_contra hcon
    have h1 : less a b = false := by
      cases h : less a b with
      | false => rfl
      | true => exact absurd (Or.inl h) hcon
    have h2 : less b a = false := by
      cases h : less b a with
      | false => rfl
      | true => exact absurd (Or.inr h) hcon
    rw [less_eq_false_iff] at h1 h2
    have heq := le_antisymm h2 h1
    have hpair : (colSubject a, colNamespace a) = (colSubject b, colNamespace b) :=
      toLex.injective heq
    rcases hne with h | h
    · exact h (congrArg Prod.fst hpair)
    · exact h (congrArg Prod.snd hpair)
  · intro a b a' b' ha hb hne
    have hne' : colSubject a' ≠ colSubject b' := by
      rw [← ha, ← hb]
      exact hne
    have h1 : less a b = true ↔ less a' b' = true := by
      rw [less_iff, less_iff, ← ha, ← hb]
      constructor
      · rintro (h | ⟨h, -⟩)
        · exact Or.inl h
        · exact absurd h hne
      · rintro (h | ⟨h, -⟩)
        · exact Or.inl h
        · exact absurd h hne
    cases h : less a b <;> cases h' : less a' b' <;> simp_all

/-- C16: the sorter neither drops, duplicates nor alters rows: the output of
`lookup` is a permutation of the rows the loop emits, with the same length
and the same number of occurrences of every row; so are the rows a successful
command returns. -/
theorem sorter_permutes {κ ρ : Type} (S : SliceSorter) (perms : Permissions ρ) (re : Regexp) :
    (lookup S perms re).Perm (matchRows perms re) ∧
    (lookup S perms re).length = (matchRows perms re).length ∧
    (∀ row : Row, (lookup S perms re).count row = (matchRows perms re).count row) ∧
    (∀ row : Row, row ∈ lookup S perms re ↔ row ∈ matchRows perms re) ∧
    (∀ (env : Env κ ρ) (clusterContext regex : String) (args : List String) (client : κ),
      compilePattern env.Compile regex args = .ok re →
      env.NewClient clusterContext = .ok client →
      env.NewPermissionsFromCluster client = .ok perms →
      ∃ rows, RunE env clusterContext regex args = .ok rows ∧
        rows.Perm (matchRows perms re)) := by
  have hp : (lookup S perms re).Perm (matchRows perms re) := S.perm _ _
  refine ⟨hp, hp.length_eq, fun row => hp.countP_eq _, fun row => hp.mem_iff, ?_⟩
  intro env clusterContext regex args client hc hn hb
  exact ⟨lookup env.sort perms re, by simp [RunE, hc, hn, hb], env.sort.perm _ _⟩

/-! ### Independence from the enumeration order, cluster rows, row width -/

theorem matchRows_perm {ρ : Type} (roles : List (String × List ρ))
    (bindings bindings' : List (String × List RoleBinding)) (re : Regexp)
    (horder : bindings.Perm bindings') :
    (matchRows ⟨roles, bindings⟩ re).Perm (matchRows ⟨roles, bindings'⟩ re) := by
  rw [matchRows_eq, matchRows_eq]
  have hr : bindingRows (⟨roles, bindings'⟩ : Permissions ρ) re =
      bindingRows (⟨roles, bindings⟩ : Permissions ρ) re := rfl
  rw [hr]
  exact List.Perm.flatMap_right _ horder

theorem sorted_keys (S : SliceSorter) (rows : List Row) :
    List.Sorted (fun x y : String ×ₗ String => x ≤ y)
      ((S.Slice rows less).map fun r => toLex (colSubject r, colNamespace r)) := by
  unfold List.Sorted
  rw [List.pairwise_map]
  exact (S.sorted rows less less_ordering).imp fun {a b} h => (less_eq_false_iff b a).1 h

/-- C17: let two runs enumerate the entries of `RoleBindings` in two orders
(each run with its own implementation of `sort.Slice`). The two outputs are
permutations of each other and have the same sequence of (subject, namespace)
pairs, position by position; and when no two emitted rows with equal subject
and equal namespace differ, the two outputs are the same sequence. -/
theorem order_independent {ρ : Type} (S S' : SliceSorter) (roles : List (String × List ρ))
    (bindings bindings' : List (String × List RoleBinding)) (re : Regexp)
    (horder : bindings.Perm bindings') :
    (lookup S ⟨roles, bindings⟩ re).Perm (lookup S' ⟨roles, bindings'⟩ re) ∧
    ((lookup S ⟨roles, bindings⟩ re).map fun r => (colSubject r, colNamespace r)) =
      ((lookup S' ⟨roles, bindings'⟩ re).map fun r => (colSubject r, colNamespace r)) ∧
    ((∀ r ∈ matchRows ⟨roles, bindings⟩ re, ∀ r' ∈ matchRows ⟨roles, bindings⟩ re,
        colSubject r = colSubject r' → colNamespace r = colNamespace r' → r = r') →
      lookup S ⟨roles, bindings⟩ re = lookup S' ⟨roles, bindings'⟩ re) := by
  have hm := matchRows_perm roles bindings bindings' re horder
  have hp : (lookup S ⟨roles, bindings⟩ re).Perm (lookup S' ⟨roles, bindings'⟩ re) :=
    ((S.perm _ less).trans hm).trans (S'.perm _ less).symm
  refine ⟨hp, ?_, ?_⟩
  · have hk := List.eq_of_perm_of_sorted
      (hp.map fun r => toLex (colSubject r, colNamespace r))
      (sorted_keys S _) (sorted_keys S' _)
    exact hk
  · intro hties
    refine @List.Perm.eq_of_sorted Row (fun a b => less b a = false) _ _ ?_
      (S.sorted _ less less_ordering) (S'.sorted _ less less_ordering) hp
    intro a b ha hb hab hba
    have ha' : a ∈ matchRows ⟨roles, bindings⟩ re := (S.perm _ less).mem_iff.1 ha
    have hb' : b ∈ matchRows ⟨roles, bindings⟩ re :=
      hm.mem_iff.2 ((S'.perm _ less).mem_iff.1 hb)
    rw [less_eq_false_iff] at hab hba
    have hpair : (colSubject a, colNamespace a) = (colSubject b, colNamespace b) :=
      toLex.injective (le_antisymm hab hba)
    exact hties a ha' b hb' (congrArg Prod.fst hpair) (congrArg Prod.snd hpair)

/-- C17 at `sortExample` and `reorderedExample`, the same graph enumerated in
the reverse order, sorted by two different implementations: the outputs are
the same sequence. -/
theorem order_independent_witness :
    sortExample.RoleBindings.Perm reorderedExample.RoleBindings ∧
    matchRows reorderedExample matchAll =
      [["alice", "User", "Role", "a", "view"], ["alice", "User", "Role", "z", "view"],
       ["bob", "User", "Role", "b", "view"]] ∧
    lookup insertionSorter sortExample matchAll =
      lookup reversingSorter reorderedExample matchAll :=
  ⟨(List.reverse_perm _).symm, by decide,
    (order_independent insertionSorter reversingSorter sortExample.Roles
      sortExample.RoleBindings reorderedExample.RoleBindings matchAll
      (List.reverse_perm _).symm).2.2 (by decide)⟩

theorem row_scope_namespace {ρ : Type} (perms : Permissions ρ) (re : Regexp) (row : Row)
    (h : row ∈ matchRows perms re) :
    (colScope row = "ClusterRole" ∧ colNamespace row = "") ∨
      (colScope row = "Role" ∧ colNamespace row ≠ "") := by
  obtain ⟨e, -, b, -, hb⟩ := (mem_matchRows perms re row).1 h
  obtain ⟨-, s, -, -, rfl⟩ := (mem_bindingRows perms re b row).1 hb
  by_cases hn : b.Namespace = ""
  · exact Or.inl (by simp [rowOf, hn, colScope, colNamespace])
  · exact Or.inr (by simp [rowOf, hn, colScope, colNamespace])

theorem bytes_le_empty (s : String) (h : strings.bytes s ≤ strings.bytes "") : s = "" := by
  rw [bytes_le_iff] at h
  rcases s with ⟨cs⟩
  cases cs with
  | nil => rfl
  | cons c cs =>
    have hlt : ("" : String) < ⟨c :: cs⟩ := String.lt_iff_toList_lt.2 List.Lex.nil
    exact absurd (lt_of_lt_of_le hlt h) (lt_irrefl _)

theorem cluster_before_role {ρ : Type} (S : SliceSorter) (perms : Permissions ρ) (re : Regexp) :
    (lookup S perms re).Pairwise fun r r' =>
      colSubject r = colSubject r' → ¬ (colScope r = "Role" ∧ colScope r' = "ClusterRole") := by
  have hmem : ∀ r ∈ lookup S perms re, r ∈ matchRows perms re :=
    fun r hr => (mem_lookup S perms re r).1 hr
  have hsorted := lookup_pairwise S perms re
  rw [List.pairwise_iff_forall_sublist] at hsorted ⊢
  intro r r' hsub hsubj hscope
  have hr : r ∈ lookup S perms re := hsub.subset (by simp)
  have hr' : r' ∈ lookup S perms re := hsub.subset (by simp)
  have hk : KeyLE r r' := hsorted hsub
  have hns : colNamespace r ≠ "" := by
    rcases row_scope_namespace perms re r (hmem r hr) with ⟨h, -⟩ | ⟨-, h⟩
    · rw [hscope.1] at h
      exact absurd h (by decide)
    · exact h
  have hns' : colNamespace r' = "" := by
    rcases row_scope_namespace perms re r' (hmem r' hr') with ⟨-, h⟩ | ⟨h, -⟩
    · exact h
    · rw [hscope.2] at h
      exact absurd h (by decide)
  rcases hk with hlt | ⟨-, hle⟩
  · rw [hsubj] at hlt
    exact lt_irrefl _ hlt
  · rw [hns'] at hle
    exact hns (bytes_le_empty _ hle)

/-- C18: among the output rows that share a subject name, every row of scope
`ClusterRole` comes before every row of scope `Role`: a `ClusterRole` row at
position `i` and a `Role` row at position `j` with the same subject have
`i < j`; no `Role` row is followed, at any distance, by a `ClusterRole` row
of the same subject. -/
theorem cluster_rows_first {ρ : Type} (S : SliceSorter) (perms : Permissions ρ) (re : Regexp) :
    (∀ (i j : Nat) (hi : i < (lookup S perms re).length) (hj : j < (lookup S perms re).length),
      colSubject ((lookup S perms re).get ⟨i, hi⟩) =
        colSubject ((lookup S perms re).get ⟨j, hj⟩) →
      colScope ((lookup S perms re).get ⟨i, hi⟩) = "ClusterRole" →
      colScope ((lookup S perms re).get ⟨j, hj⟩) = "Role" → i < j) ∧
    ((lookup S perms re).Pairwise fun r r' =>
      colSubject r = colSubject r' → ¬ (colScope r = "Role" ∧ colScope r' = "ClusterRole")) := by
  refine ⟨?_, cluster_before_role S perms re⟩
  intro i j hi hj hsubj hci hrj
  have hp := List.pairwise_iff_getElem.1 (cluster_before_role S perms re)
  rcases Nat.lt_trichotomy i j with h | h | h
  · exact h
  · subst h
    rw [hci] at hrj
    exact absurd hrj (by decide)
  · exact absurd ⟨hrj, hci⟩ (hp j i hj hi h hsubj.symm)

theorem lessChecked_of_length (a b : Row) (ha : a.length = 5) (hb : b.length = 5) :
    lessChecked a b = some (less a b) := by
  match a, ha with
  | [a0, a1, a2, a3, a4], _ =>
    match b, hb with
    | [b0, b1, b2, b3, b4], _ =>
      simp only [lessChecked, less, index, List.get?, List.getD_cons_zero, List.getD_cons_succ]
      split_ifs <;> rfl

theorem matchRows_row {ρ : Type} (perms : Permissions ρ) (re : Regexp) (row : Row)
    (h : row ∈ matchRows perms re) :
    ∃ e ∈ perms.RoleBindings, ∃ b ∈ e.2, ∃ s ∈ b.Subjects, row = rowOf b s := by
  obtain ⟨e, he, b, hb, hrb⟩ := (mem_matchRows perms re row).1 h
  obtain ⟨-, s, hs, -, rfl⟩ := (mem_bindingRows perms re b row).1 hrb
  exact ⟨e, he, b, hb, s, hs, rfl⟩

theorem rowOf_length (b : RoleBinding) (s : Subject) : (rowOf b s).length = 5 := by
  unfold rowOf
  split_ifs <;> rfl

/-- C19: every row the loop emits has exactly five fields, as many as the
header, in the order of the header: the name of the subject, its kind, the
scope label, the namespace, the role name. So the index expressions `[0]` and
`[3]` of the comparator are in bounds on any two rows of the slice, emitted or
already rearranged: the checked comparator never panics and returns what
`less` returns (on a row of one field it would panic). -/
theorem fixed_row_width {ρ : Type} (S : SliceSorter) (perms : Permissions ρ) (re : Regexp) :
    header = ["SUBJECT", "SUBJECT TYPE", "SCOPE", "NAMESPACE", "ROLE"] ∧
    (∀ row ∈ matchRows perms re, row.length = 5 ∧ row.length = header.length ∧
      ∃ e ∈ perms.RoleBindings, ∃ b ∈ e.2, ∃ s ∈ b.Subjects,
        index row 0 = some s.Name ∧ index row 1 = some s.Kind ∧
        (index row 2 = some "ClusterRole" ∨ index row 2 = some "Role") ∧
        index row 3 = some b.Namespace ∧ index row 4 = some b.RoleRef.Name ∧
        index row 5 = none) ∧
    (∀ a ∈ matchRows perms re, ∀ b ∈ matchRows perms re,
      lessChecked a b = some (less a b)) ∧
    (∀ a ∈ lookup S perms re, ∀ b ∈ lookup S perms re,
      lessChecked a b = some (less a b)) ∧
    lessChecked ["alice"] ["alice"] = none := by
  have hlen : ∀ row ∈ matchRows perms re, row.length = 5 := by
    intro row hrow
    obtain ⟨e, -, b, -, s, -, rfl⟩ := matchRows_row perms re row hrow
    exact rowOf_length b s
  refine ⟨rfl, ?_, ?_, ?_, by decide⟩
  · intro row hrow
    refine ⟨hlen row hrow, hlen row hrow, ?_⟩
    obtain ⟨e, he, b, hb, s, hs, rfl⟩ := matchRows_row perms re row hrow
    refine ⟨e, he, b, hb, s, hs, ?_⟩
    by_cases hn : b.Namespace = "" <;> simp [rowOf, hn, index]
  · intro a ha b hb
    exact lessChecked_of_length a b (hlen a ha) (hlen b hb)
  · intro a ha b hb
    exact lessChecked_of_length a b (hlen a ((mem_lookup S perms re a).1 ha))
      (hlen b ((mem_lookup S perms re b).1 hb))

/-! ### The order of tied rows under the library's `sort.Slice` -/

theorem Less_true {α : Type} (lt : α → α → Bool) (data : List α) (i j : Nat)
    (h : sort.Less lt data i j = true) :
    ∃ x y, data.get? i = some x ∧ data.get? j = some y ∧ lt x y = true := by
  unfold sort.Less at h
  split at h
  · rename_i x y hi hj
    exact ⟨x, y, hi, hj, h⟩
  · exact absurd h (by decide)

theorem Swap_adjacent {α : Type} (data : List α) (j : Nat) (x y : α)
    (hx : data.get? j = some x) (hy : data.get? (j + 1) = some y) :
    sort.Swap data (j + 1) j = (data.set (j + 1) x).set j y := by
  unfold sort.Swap
  simp only [hx, hy]

theorem filter_set_adjacent {α : Type} (p : α → Bool) (data : List α) (j : Nat) (x y : α)
    (hx : data.get? j = some x) (hy : data.get? (j + 1) = some y)
    (hp : (p x && p y) = false) :
    ((data.set (j + 1) x).set j y).filter p = data.filter p := by
  induction data generalizing j with
  | nil => simp at hx
  | cons h t ih =>
    cases j with
    | zero =>
      cases t with
      | nil => simp at hy
      | cons h' t' =>
        simp only [List.get?_cons_zero, Option.some.injEq] at hx
        simp only [List.get?_cons_succ, List.get?_cons_zero, Option.some.injEq] at hy
        subst hx hy
        simp only [List.set_cons_succ, List.set_cons_zero, List.filter_cons]
        cases hh : p h <;> cases hh' : p h' <;> simp_all
    | succ j' =>
      simp only [List.get?_cons_succ] at hx hy
      simp only [List.set_cons_succ, List.filter_cons, ih j' hx hy]

theorem filter_insertionInner {α : Type} (lt : α → α → Bool) (p : α → Bool)
    (hp : ∀ x y, lt y x = true → (p x && p y) = false) (a j : Nat) (data : List α) :
    (sort.insertionInner lt a j data).filter p = data.filter p := by
  induction j generalizing data with
  | zero => rfl
  | succ j ih =>
    unfold sort.insertionInner
    split_ifs with h
    · obtain ⟨y, x, hy, hx, hlt⟩ := Less_true lt data (j + 1) j h.2
      rw [ih, Swap_adjacent data j x y hx hy, filter_set_adjacent p data j x y hx hy (hp x y hlt)]
    · rfl

theorem filter_insertionSort_func {α : Type} (lt : α → α → Bool) (p : α → Bool)
    (hp : ∀ x y, lt y x = true → (p x && p y) = false) (data : List α) (a b : Nat) :
    (sort.insertionSort_func lt data a b).filter p = data.filter p := by
  unfold sort.insertionSort_func
  generalize List.range' (a + 1) (b - (a + 1)) = is
  induction is generalizing data with
  | nil => rfl
  | cons i is ih =>
    rw [List.foldl_cons, ih, filter_insertionInner lt p hp]

theorem Slice_short {α : Type} (x : List α) (lt : α → α → Bool) (h : x.length ≤ 12) :
    sort.Slice x lt = sort.insertionSort_func lt x 0 x.length := by
  unfold sort.Slice sort.pdqsort_func
  simp [h]

theorem less_keys_differ (name ns : String) (x y : Row) (h : less y x = true) :
    (decide (colSubject x = name ∧ colNamespace x = ns) &&
      decide (colSubject y = name ∧ colNamespace y = ns)) = false := by
  rw [less_iff] at h
  by_contra hc
  simp only [Bool.not_eq_false, Bool.and_eq_true, decide_eq_true_eq] at hc
  obtain ⟨⟨hx1, hx2⟩, hy1, hy2⟩ := hc
  rw [hx1, hy1, hx2, hy2] at h
  rcases h with h | ⟨-, h⟩
  · exact lt_irrefl _ h
  · exact lt_irrefl _ h

/-- C4 as stated fails: the graph `thirteenRows` emits thirteen rows, among
them `alice` in `dev` with the role `edit` and, four rows later, `alice` in
`dev` with the role `view`; `sort.Slice` takes its quicksort path (more than
twelve elements), whose partition step moves the row of `view` to the front:
in the sorted output `view` comes before `edit`. -/
theorem stable_tie_break_counterexample :
    matchRows thirteenRows matchAll =
      [["mallory", "User", "Role", "dev", "view"], ["alice", "User", "Role", "dev", "edit"],
       ["bob", "User", "Role", "dev", "view"], ["carol", "User", "Role", "dev", "view"],
       ["dave", "User", "Role", "dev", "view"], ["alice", "User", "Role", "dev", "view"],
       ["frank", "User", "Role", "dev", "view"], ["grace", "User", "Role", "dev", "view"],
       ["heidi", "User", "Role", "dev", "view"], ["ivan", "User", "Role", "dev", "view"],
       ["judy", "User", "Role", "dev", "view"], ["kevin", "User", "Role", "dev", "view"],
       ["laura", "User", "Role", "dev", "view"]] ∧
    sortedRows thirteenRows matchAll =
      [["alice", "User", "Role", "dev", "view"], ["alice", "User", "Role", "dev", "edit"],
       ["bob", "User", "Role", "dev", "view"], ["carol", "User", "Role", "dev", "view"],
       ["dave", "User", "Role", "dev", "view"], ["frank", "User", "Role", "dev", "view"],
       ["grace", "User", "Role", "dev", "view"], ["heidi", "User", "Role", "dev", "view"],
       ["ivan", "User", "Role", "dev", "view"], ["judy", "User", "Role", "dev", "view"],
       ["kevin", "User", "Role", "dev", "view"], ["laura", "User", "Role", "dev", "view"],
       ["mallory", "User", "Role", "dev", "view"]] ∧
    colSubject ["alice", "User", "Role", "dev", "edit"] =
      colSubject ["alice", "User", "Role", "dev", "view"] ∧
    colNamespace ["alice", "User", "Role", "dev", "edit"] =
      colNamespace ["alice", "User", "Role", "dev", "view"] ∧
    List.Sublist
      [["alice", "User", "Role", "dev", "edit"], ["alice", "User", "Role", "dev", "view"]]
      (matchRows thirteenRows matchAll) ∧
    ¬ List.Sublist
      [["alice", "User", "Role", "dev", "edit"], ["alice", "User", "Role", "dev", "view"]]
      (sortedRows thirteenRows matchAll) ∧
    ¬ (∀ (perms : Permissions Unit) (re : Regexp) (a b : Row),
        colSubject a = colSubject b → colNamespace a = colNamespace b →
        List.Sublist [a, b] (matchRows perms re) → List.Sublist [a, b] (sortedRows perms re)) := by
  have h1 : matchRows thirteenRows matchAll =
      [["mallory", "User", "Role", "dev", "view"], ["alice", "User", "Role", "dev", "edit"],
       ["bob", "User", "Role", "dev", "view"], ["carol", "User", "Role", "dev", "view"],
       ["dave", "User", "Role", "dev", "view"], ["alice", "User", "Role", "dev", "view"],
       ["frank", "User", "Role", "dev", "view"], ["grace", "User", "Role", "dev", "view"],
       ["heidi", "User", "Role", "dev", "view"], ["ivan", "User", "Role", "dev", "view"],
       ["judy", "User", "Role", "dev", "view"], ["kevin", "User", "Role", "dev", "view"],
       ["laura", "User", "Role", "dev", "view"]] := by decide
  have h2 : sortedRows thirteenRows matchAll =
      [["alice", "User", "Role", "dev", "view"], ["alice", "User", "Role", "dev", "edit"],
       ["bob", "User", "Role", "dev", "view"], ["carol", "User", "Role", "dev", "view"],
       ["dave", "User", "Role", "dev", "view"], ["frank", "User", "Role", "dev", "view"],
       ["grace", "User", "Role", "dev", "view"], ["heidi", "User", "Role", "dev", "view"],
       ["ivan", "User", "Role", "dev", "view"], ["judy", "User", "Role", "dev", "view"],
       ["kevin", "User", "Role", "dev", "view"], ["laura", "User", "Role", "dev", "view"],
       ["mallory", "User", "Role", "dev", "view"]] := by
    unfold sortedRows
    rw [h1]
    decide
  have h3 : List.Sublist
      [["alice", "User", "Role", "dev", "edit"], ["alice", "User", "Role", "dev", "view"]]
      (matchRows thirteenRows matchAll) := by
    rw [h1]
    decide
  have h4 : ¬ List.Sublist
      [["alice", "User", "Role", "dev", "edit"], ["alice", "User", "Role", "dev", "view"]]
      (sortedRows thirteenRows matchAll) := by
    rw [h2]
    decide
  exact ⟨h1, h2, by decide, by decide, h3, h4,
    fun h => h4 (h thirteenRows matchAll _ _ (by decide) (by decide) h3)⟩

/-- C4 (amended): when at most twelve rows are emitted, `sort.Slice` runs its
insertion sort, and any two rows with equal subject name and equal namespace
appear in the sorted output in the order in which they were emitted: for every
(subject name, namespace) pair, the rows of that pair form the same sequence
in the output as in the emission. -/
theorem stable_up_to_twelve_rows {ρ : Type} (perms : Permissions ρ) (re : Regexp)
    (hlen : (matchRows perms re).length ≤ 12) :
    sortedRows perms re =
      sort.insertionSort_func less (matchRows perms re) 0 (matchRows perms re).length ∧
    (∀ name ns : String,
      (sortedRows perms re).filter (fun r => decide (colSubject r = name ∧ colNamespace r = ns)) =
        (matchRows perms re).filter
          (fun r => decide (colSubject r = name ∧ colNamespace r = ns))) ∧
    (∀ a b : Row, colSubject a = colSubject b → colNamespace a = colNamespace b →
      List.Sublist [a, b] (matchRows perms re) → List.Sublist [a, b] (sortedRows perms re)) := by
  have hs : sortedRows perms re =
      sort.insertionSort_func less (matchRows perms re) 0 (matchRows perms re).length :=
    Slice_short (matchRows perms re) less hlen
  have hf : ∀ name ns : String,
      (sortedRows perms re).filter (fun r => decide (colSubject r = name ∧ colNamespace r = ns)) =
        (matchRows perms re).filter
          (fun r => decide (colSubject r = name ∧ colNamespace r = ns)) := by
    intro name ns
    rw [hs]
    exact filter_insertionSort_func less _ (less_keys_differ name ns) _ _ _
  refine ⟨hs, hf, ?_⟩
  intro a b h0 h3 hsub
  have hfa : [a, b].filter
      (fun r => decide (colSubject r = colSubject a ∧ colNamespace r = colNamespace a)) =
      [a, b] := by
    simp [List.filter_cons, h0, h3]
  have h := hsub.filter
    (fun r => decide (colSubject r = colSubject a ∧ colNamespace r = colNamespace a))
  rw [hfa, ← hf] at h
  exact h.trans (List.filter_sublist _)

/-- C4 (amended) at `tieExample`: two rows are emitted, `alice` with `edit`
and then with `view`, and they come out in that order. -/
theorem stable_up_to_twelve_rows_witness :
    sortedRows tieExample matchAll =
      [["alice", "User", "Role", "dev", "edit"], ["alice", "User", "Role", "dev", "view"]] ∧
    List.Sublist
      [["alice", "User", "Role", "dev", "edit"], ["alice", "User", "Role", "dev", "view"]]
      (sortedRows tieExample matchAll) :=
  ⟨by decide,
    (stable_up_to_twelve_rows tieExample matchAll (by decide)).2.2
      ["alice", "User", "Role", "dev", "edit"] ["alice", "User", "Role", "dev", "view"]
      rfl rfl (by decide)⟩

end cmd
